import Mathlib

/-!
Shallow embedding of the dungeon generator in `src/src/App.tsx`.

The generator works on a fixed 64×64 grid of tiles (WALL/FLOOR), places
non-overlapping rectangular rooms by rejection sampling (at most 200
attempts), and connects the rooms with L-shaped corridors chosen by an
incremental nearest-neighbour (Prim-style) scan over room centers.

Randomness: the source calls the global `Math.random()`, which returns a
real in [0, 1).  We model the random source as an explicit stream
`rand : Nat → ℚ` together with a running index `k`; each call to
`Math.random()` consumes one index.  `randInt` mirrors
`Math.floor(Math.random() * (max - min + 1)) + min` exactly.

The grid is a list of rows of tiles (`[y][x]` indexing, as in the source).
JS mutation `grid[y][x] = FLOOR` is modelled by the total function
`setFloor`; out-of-range writes are no-ops (such writes never occur at the
call sites: `carveLineH`/`carveLineV` guard every write with `inBounds`,
and `placeRooms` only writes inside accepted room footprints, which are in
bounds).

Loops are modelled with structural fuel where the source loop carries an
explicit attempt counter (`placeRoomsGo`: fuel = 200 − attempts, so the
guard `attempts < 200` of the source is the guard `fuel > 0`), or with
fuel that provably dominates the loop's variant (`connectLoop`, whose
source loop adds one room per iteration to the connected set).
-/

namespace Dungeon

def WIDTH : Nat := 64
def HEIGHT : Nat := 64

def ROOM_W_MIN : Int := 4
def ROOM_W_MAX : Int := 12
def ROOM_H_MIN : Int := 2
def ROOM_H_MAX : Int := 10

/-- The attempt cap of the `placeRooms` loop (`attempts < 200`). -/
def ATTEMPT_CAP : Nat := 200

inductive Tile
  | WALL
  | FLOOR
deriving DecidableEq

open Tile

/-- `type Room = { x: number; y: number; w: number; h: number }`. -/
structure Room where
  x : Int
  y : Int
  w : Int
  h : Int
deriving DecidableEq

/-- `type Grid = Tile[][]` with `[y][x]` indexing. -/
abbrev Grid := List (List Tile)

/-- Integer (x, y) pair, used for room centers and corridor endpoints. -/
abbrev Point := Int × Int

/-- `Math.floor(Math.random() * (max - min + 1)) + min`, with the
`Math.random()` result `q` passed explicitly. -/
def randInt (q : ℚ) (lo hi : Int) : Int :=
  ⌊q * ((hi - lo + 1 : Int) : ℚ)⌋ + lo

/-- `createGrid(w, h, fill)`: h rows of w copies of `fill`. -/
def createGrid (w h : Nat) (fill : Tile) : Grid :=
  List.replicate h (List.replicate w fill)

/-- `inBounds(x, y)`. -/
def inBounds (x y : Int) : Bool :=
  decide (x ≥ 0) && decide (y ≥ 0) && decide (x < (WIDTH : Int)) &&
    decide (y < (HEIGHT : Int))

/-- `roomsOverlap(a, b)`: bounding boxes expanded by one cell on the max
edges intersect. -/
def roomsOverlap (a b : Room) : Bool :=
  !(decide (a.x + a.w + 1 ≤ b.x) || decide (b.x + b.w + 1 ≤ a.x) ||
    decide (a.y + a.h + 1 ≤ b.y) || decide (b.y + b.h + 1 ≤ a.y))

/-- The JS write `grid[y][x] = FLOOR`, as a total function: a write whose
row or column does not exist leaves the grid unchanged. -/
def setFloor (g : Grid) (x y : Int) : Grid :=
  if 0 ≤ x ∧ 0 ≤ y then
    g.set y.toNat ((g.getD y.toNat []).set x.toNat FLOOR)
  else g

/-- Total read of `grid[y][x]`, defaulting to WALL outside the grid. -/
def getCell (g : Grid) (x y : Int) : Tile :=
  if 0 ≤ x ∧ 0 ≤ y then (g.getD y.toNat []).getD x.toNat WALL else WALL

/-- One step of a carving run: `if (inBounds(x, y)) grid[y][x] = FLOOR`. -/
def carveWrite (g : Grid) (p : Point) : Grid :=
  if inBounds p.1 p.2 then setFloor g p.1 p.2 else g

def applyWrites (g : Grid) (L : List Point) : Grid :=
  L.foldl carveWrite g

/-- The cells `(x, y)` for `x` from `min x1 x2` to `max x1 x2`, in loop
order, as visited by `carveLineH`. -/
def hCells (x1 x2 y : Int) : List Point :=
  let lo := if x1 ≤ x2 then x1 else x2
  let hi := if x1 ≤ x2 then x2 else x1
  (List.range ((hi - lo).toNat + 1)).map (fun (i : Nat) => (lo + (i : Int), y))

/-- The cells `(x, y)` for `y` from `min y1 y2` to `max y1 y2`, in loop
order, as visited by `carveLineV`. -/
def vCells (y1 y2 x : Int) : List Point :=
  let lo := if y1 ≤ y2 then y1 else y2
  let hi := if y1 ≤ y2 then y2 else y1
  (List.range ((hi - lo).toNat + 1)).map (fun (i : Nat) => (x, lo + (i : Int)))

/-- `carveLineH(grid, x1, x2, y)`. -/
def carveLineH (g : Grid) (x1 x2 y : Int) : Grid :=
  applyWrites g (hCells x1 x2 y)

/-- `carveLineV(grid, y1, y2, x)`. -/
def carveLineV (g : Grid) (y1 y2 x : Int) : Grid :=
  applyWrites g (vCells y1 y2 x)

/-- `carveCorridor(grid, x1, y1, x2, y2)`, with the `Math.random()` draw
`q` deciding `firstHorizontal = q < 0.5` passed explicitly. -/
def carveCorridor (q : ℚ) (g : Grid) (x1 y1 x2 y2 : Int) : Grid :=
  if q < 1 / 2 then carveLineV (carveLineH g x1 x2 y1) y1 y2 x2
  else carveLineH (carveLineV g y1 y2 x1) x1 x2 y2

/-- The double `for` loop of `placeRooms` that carves an accepted room:
`for yy in [y, y+h) for xx in [x, x+w): grid[yy][xx] = FLOOR`. -/
def carveRoom (g : Grid) (r : Room) : Grid :=
  (List.range r.h.toNat).foldl
    (fun g (dy : Nat) =>
      (List.range r.w.toNat).foldl
        (fun g (dx : Nat) => setFloor g (r.x + (dx : Int)) (r.y + (dy : Int))) g)
    g

/-- The `while (rooms.length < roomCount && attempts < 200)` loop of
`placeRooms`; `fuel = 200 - attempts`, so `fuel > 0 ↔ attempts < 200`.
Each iteration consumes four random draws (w, h, x, y).  Returns the
grid, the accepted rooms, the final attempt count and the next random
index. -/
def placeRoomsGo (rand : Nat → ℚ) (roomCount : Nat) :
    Nat → Grid → List Room → Nat → Nat → Grid × List Room × Nat × Nat
  | 0, g, rooms, attempts, k => (g, rooms, attempts, k)
  | fuel + 1, g, rooms, attempts, k =>
    if rooms.length < roomCount then
      let w := randInt (rand k) ROOM_W_MIN ROOM_W_MAX
      let h := randInt (rand (k + 1)) ROOM_H_MIN ROOM_H_MAX
      let x := randInt (rand (k + 2)) 2 ((WIDTH : Int) - w - 3)
      let y := randInt (rand (k + 3)) 2 ((HEIGHT : Int) - h - 3)
      let candidate : Room := ⟨x, y, w, h⟩
      if rooms.any (fun r => roomsOverlap r candidate) then
        placeRoomsGo rand roomCount fuel g rooms (attempts + 1) (k + 4)
      else
        placeRoomsGo rand roomCount fuel (carveRoom g candidate)
          (rooms ++ [candidate]) (attempts + 1) (k + 4)
    else (g, rooms, attempts, k)

/-- `placeRooms(grid, roomCount)`. -/
def placeRooms (rand : Nat → ℚ) (g : Grid) (roomCount : Nat) :
    Grid × List Room × Nat × Nat :=
  placeRoomsGo rand roomCount ATTEMPT_CAP g [] 0 0

/-- `{ x: Math.floor(r.x + r.w / 2), y: Math.floor(r.y + r.h / 2) }`. -/
def center (r : Room) : Point :=
  (⌊(r.x : ℚ) + (r.w : ℚ) / 2⌋, ⌊(r.y : ℚ) + (r.h : ℚ) / 2⌋)

/-- `Math.abs(pa.x - pb.x) + Math.abs(pa.y - pb.y)`. -/
def manhattan (p q : Point) : Nat :=
  (p.1 - q.1).natAbs + (p.2 - q.2).natAbs

/-- `centers[i]` (the index is always in range at the call sites). -/
def centerAt (centers : List Point) (i : Nat) : Point :=
  centers.getD i (0, 0)

/-- The body of the inner `for b` loop of the connector's pair search:
skip connected `b`, otherwise keep the better of `best` and `(a, b)`
(strict improvement only, so the first minimum found wins). -/
def considerPair (centers : List Point) (connected : List Nat) (a : Nat)
    (best : Option (Nat × Nat × Nat)) (b : Nat) : Option (Nat × Nat × Nat) :=
  if b ∈ connected then best
  else
    let d := manhattan (centerAt centers a) (centerAt centers b)
    match best with
    | none => some (d, a, b)
    | some (bd, ba, bb) =>
      if d < bd then some (d, a, b) else some (bd, ba, bb)

/-- The double loop `for a of connected / for b in 0..n-1` that finds the
pair `(bestA, bestB)` minimizing Manhattan distance; `none` plays the
role of `bestDist = Infinity, bestA = bestB = -1`. -/
def findBest (centers : List Point) (connected : List Nat) :
    Option (Nat × Nat) :=
  (connected.foldl
    (fun best a =>
      (List.range centers.length).foldl (considerPair centers connected a) best)
    none).map (fun t => (t.2.1, t.2.2))

/-- The `while (connected.size < centers.length)` loop of the connector.
The JS `Set` iterates in insertion order, so `connected` is a list in
insertion order; `edges` records the carved pairs and the final `Bool` is
true when the `else break` branch was taken.  Each iteration, one new
room is connected, so fuel `centers.length` always suffices. -/
def connectLoop (rand : Nat → ℚ) (centers : List Point) :
    Nat → Grid → List Nat → List (Nat × Nat) → Nat →
      Grid × List Nat × List (Nat × Nat) × Bool
  | 0, g, connected, edges, _ => (g, connected, edges, false)
  | fuel + 1, g, connected, edges, k =>
    if connected.length < centers.length then
      match findBest centers connected with
      | some (a, b) =>
        connectLoop rand centers fuel
          (carveCorridor (rand k) g (centerAt centers a).1 (centerAt centers a).2
            (centerAt centers b).1 (centerAt centers b).2)
          (connected ++ [b]) (edges ++ [(a, b)]) (k + 1)
      | none => (g, connected, edges, true)
    else (g, connected, edges, false)

/-- `connectRoomsWithCorridors(grid, rooms)` (instrumented: besides the
grid it returns the connected-index list, the carved edges and the
early-break flag, which the source keeps in local variables). -/
def connectRoomsWithCorridors (rand : Nat → ℚ) (k : Nat) (g : Grid)
    (rooms : List Room) : Grid × List Nat × List (Nat × Nat) × Bool :=
  if rooms.length = 0 then (g, [], [], false)
  else connectLoop rand (rooms.map center) rooms.length g [0] [] k

/-- `generateDungeon(roomCount)`: fresh all-WALL grid, place rooms,
connect them. -/
def generateDungeon (rand : Nat → ℚ) (roomCount : Nat) : Grid × List Room :=
  let g0 := createGrid WIDTH HEIGHT WALL
  let p := placeRooms rand g0 roomCount
  let c := connectRoomsWithCorridors rand p.2.2.2 p.1 p.2.1
  (c.1, p.2.1)

/-- A random stream is valid when every draw lies in [0, 1), as
`Math.random()` guarantees. -/
def ValidRand (rand : Nat → ℚ) : Prop :=
  ∀ n, 0 ≤ rand n ∧ rand n < 1

/-- Spec-side notion for C2: the two rooms' bounding boxes, each expanded
by one cell on the max edges, have a common point. -/
def expandedBoxesIntersect (a b : Room) : Prop :=
  ∃ px py : Int,
    (a.x ≤ px ∧ px ≤ a.x + a.w ∧ a.y ≤ py ∧ py ≤ a.y + a.h) ∧
    (b.x ≤ px ∧ px ≤ b.x + b.w ∧ b.y ≤ py ∧ py ≤ b.y + b.h)

/-- `p` lies in the footprint of room `r`. -/
def inFootprint (r : Room) (p : Point) : Prop :=
  r.x ≤ p.1 ∧ p.1 < r.x + r.w ∧ r.y ≤ p.2 ∧ p.2 < r.y + r.h

/-- The cell `p` of grid `g` is FLOOR. -/
def isFloor (g : Grid) (p : Point) : Prop :=
  getCell g p.1 p.2 = FLOOR

/-- Orthogonal adjacency of two cells. -/
def adjacent (p q : Point) : Prop :=
  (p.1 = q.1 ∧ (p.2 = q.2 + 1 ∨ q.2 = p.2 + 1)) ∨
  (p.2 = q.2 ∧ (p.1 = q.1 + 1 ∨ q.1 = p.1 + 1))

/-- Connectivity through orthogonally adjacent FLOOR cells. -/
inductive FloorConn (g : Grid) : Point → Point → Prop
  | refl (p : Point) : isFloor g p → FloorConn g p p
  | step (p q r : Point) :
      FloorConn g p q → adjacent q r → isFloor g r → FloorConn g p r

/-- Reachability in the undirected graph given by an edge list over room
indices. -/
inductive EdgeConn (es : List (Nat × Nat)) : Nat → Nat → Prop
  | refl (i : Nat) : EdgeConn es i i
  | step (i j k : Nat) :
      EdgeConn es i j → ((j, k) ∈ es ∨ (k, j) ∈ es) → EdgeConn es i k

/-- Every FLOOR cell of `g` is still FLOOR in `g'`. -/
def floorSubset (g g' : Grid) : Prop :=
  ∀ x y : Int, getCell g x y = FLOOR → getCell g' x y = FLOOR

/-- The grid has the fixed 64×64 shape. -/
def WFGrid (g : Grid) : Prop :=
  g.length = HEIGHT ∧ ∀ row ∈ g, row.length = WIDTH

/-- The bounds every accepted room satisfies (margins and sampled size
ranges). -/
def RoomInBounds (r : Room) : Prop :=
  2 ≤ r.x ∧ 2 ≤ r.y ∧ r.x + r.w ≤ (WIDTH : Int) - 3 ∧
    r.y + r.h ≤ (HEIGHT : Int) - 3 ∧
    ROOM_W_MIN ≤ r.w ∧ r.w ≤ ROOM_W_MAX ∧ ROOM_H_MIN ≤ r.h ∧ r.h ≤ ROOM_H_MAX

/-- The pair-search accumulator is well-formed: whatever `best` holds is
a valid candidate pair (a connected, b unconnected and in range) with its
recorded distance. -/
def BestValid (centers : List Point) (connected : List Nat)
    (best : Option (Nat × Nat × Nat)) : Prop :=
  ∀ d a b, best = some (d, a, b) →
    a ∈ connected ∧ b < centers.length ∧ b ∉ connected ∧
      d = manhattan (centerAt centers a) (centerAt centers b)

/-- The pair-search accumulator holds some pair of distance at most D. -/
def BestLe (best : Option (Nat × Nat × Nat)) (D : Nat) : Prop :=
  ∃ d a b, best = some (d, a, b) ∧ d ≤ D

/-- A concrete scripted random stream: every draw is 0. -/
def randZero : Nat → ℚ := fun _ => 0

/-- A concrete scripted random stream whose first four draws are 0 and
the rest 1/2; with it `placeRooms` accepts two disjoint rooms. -/
def randTwoRooms : Nat → ℚ := fun n => if n < 4 then 0 else 1 / 2

/-- `setFloor` restricted to already-nonnegative (Nat) coordinates;
`setFloor` agrees with it whenever its sign guard holds. -/
def setFloorN (g : Grid) (i j : Nat) : Grid :=
  g.set j ((g.getD j []).set i FLOOR)

/-- Unguarded sequence of writes `grid[y][x] = FLOOR`, used to reason
about the room-carving double loop of `placeRooms`. -/
def floorAll (g : Grid) (L : List Point) : Grid :=
  L.foldl (fun g p => setFloor g p.1 p.2) g

/-- The footprint cells of a room in the order the `placeRooms` double
loop writes them. -/
def roomCells (r : Room) : List Point :=
  (List.range r.h.toNat).flatMap
    (fun (dy : Nat) => (List.range r.w.toNat).map
      (fun (dx : Nat) => (r.x + (dx : Int), r.y + (dy : Int))))

/-! ### Basic lemmas about single-cell writes -/

theorem length_setFloor (g : Grid) (x y : Int) :
    (setFloor g x y).length = g.length := by
  unfold setFloor; split <;> simp

theorem getD_row_setFloor (g : Grid) (x y : Int) (j : Nat) :
    ((setFloor g x y).getD j []).length = (g.getD j []).length := by
  unfold setFloor
  split
  · rcases Nat.lt_or_ge y.toNat g.length with hlt | hge
    · by_cases hj : y.toNat = j
      · subst hj
        simp [List.getD_eq_getElem?_getD, List.getElem?_set_self hlt]
      · simp [List.getD_eq_getElem?_getD, List.getElem?_set_ne hj]
    · rw [List.set_eq_of_length_le]
      simpa using hge
  · rfl

theorem getCell_setFloor_ne (g : Grid) (x y a b : Int) (h : ¬(a = x ∧ b = y)) :
    getCell (setFloor g x y) a b = getCell g a b := by
  unfold setFloor getCell
  by_cases hxy : 0 ≤ x ∧ 0 ≤ y
  · rw [if_pos hxy]
    by_cases hab : 0 ≤ a ∧ 0 ≤ b
    · rw [if_pos hab, if_pos hab]
      rcases Nat.lt_or_ge y.toNat g.length with hlt | hge
      · by_cases hb : b = y
        · subst hb
          have hax : a ≠ x := by tauto
          have haxn : x.toNat ≠ a.toNat := by omega
          simp [List.getD_eq_getElem?_getD, List.getElem?_set_self hlt,
            List.getElem?_set_ne haxn]
        · have hbn : y.toNat ≠ b.toNat := by omega
          simp [List.getD_eq_getElem?_getD, List.getElem?_set_ne hbn]
      · rw [List.set_eq_of_length_le]
        simpa using hge
    · rw [if_neg hab, if_neg hab]
  · rw [if_neg hxy]

theorem getCell_setFloor_self (g : Grid) (x y : Int) (hx : 0 ≤ x) (hy : 0 ≤ y)
    (hrow : y.toNat < g.length) (hcol : x.toNat < (g.getD y.toNat []).length) :
    getCell (setFloor g x y) x y = Tile.FLOOR := by
  unfold setFloor getCell
  rw [if_pos ⟨hx, hy⟩, if_pos ⟨hx, hy⟩]
  have h1 : (g.set y.toNat ((g.getD y.toNat []).set x.toNat Tile.FLOOR)).getD y.toNat []
      = (g.getD y.toNat []).set x.toNat Tile.FLOOR := by
    simp [List.getD_eq_getElem?_getD, List.getElem?_set_self hrow]
  rw [h1]
  rw [List.getD_eq_getElem?_getD] at hcol
  simp [List.getD_eq_getElem?_getD, List.getElem?_set_self hcol]

theorem getCell_setFloor_or (g : Grid) (x y a b : Int) :
    getCell (setFloor g x y) a b = getCell g a b ∨
      getCell (setFloor g x y) a b = Tile.FLOOR := by
  by_cases h : a = x ∧ b = y
  · rcases h with ⟨rfl, rfl⟩
    by_cases hxy : 0 ≤ a ∧ 0 ≤ b
    · rcases Nat.lt_or_ge b.toNat g.length with hlt | hge
      · rcases Nat.lt_or_ge a.toNat ((g.getD b.toNat []).length) with hclt | hcge
        · exact Or.inr (getCell_setFloor_self g a b hxy.1 hxy.2 hlt hclt)
        · left
          unfold setFloor getCell
          rw [if_pos hxy, if_pos hxy, if_pos hxy]
          rw [List.set_eq_of_length_le (l := g.getD b.toNat []) (by simpa using hcge)]
          rcases Nat.lt_or_ge b.toNat g.length with h2 | h2
          · simp [List.getD_eq_getElem?_getD, List.getElem?_set_self h2]
          · omega
      · left
        unfold setFloor
        rw [if_pos hxy, List.set_eq_of_length_le (by simpa using hge)]
    · left; unfold setFloor; rw [if_neg hxy]
  · exact Or.inl (getCell_setFloor_ne g x y a b h)

theorem setFloor_eq_setFloorN (g : Grid) (x y : Int) (hx : 0 ≤ x) (hy : 0 ≤ y) :
    setFloor g x y = setFloorN g x.toNat y.toNat := by
  simp [setFloor, setFloorN, hx, hy]

theorem setFloorN_of_length_le (g : Grid) (i j : Nat) (h : g.length ≤ j) :
    setFloorN g i j = g := by
  simp [setFloorN, List.set_eq_of_length_le h]

theorem getD_setFloorN_self (g : Grid) (i j : Nat) (h : j < g.length) :
    (setFloorN g i j).getD j [] = (g.getD j []).set i FLOOR := by
  simp [setFloorN, List.getD_eq_getElem?_getD, List.getElem?_set_self h]

theorem getD_setFloorN_ne (g : Grid) (i j j' : Nat) (h : j ≠ j') :
    (setFloorN g i j).getD j' [] = g.getD j' [] := by
  simp [setFloorN, List.getD_eq_getElem?_getD, List.getElem?_set_ne h]

theorem setFloorN_comm (g : Grid) (i1 j1 i2 j2 : Nat) :
    setFloorN (setFloorN g i1 j1) i2 j2 = setFloorN (setFloorN g i2 j2) i1 j1 := by
  by_cases hj : j1 = j2
  · subst hj
    rcases Nat.lt_or_ge j1 g.length with hlt | hge
    · by_cases hi : i1 = i2
      · subst hi; rfl
      · conv_lhs => rw [setFloorN, getD_setFloorN_self g i1 j1 hlt]
        conv_rhs => rw [setFloorN, getD_setFloorN_self g i2 j1 hlt]
        rw [setFloorN, setFloorN, List.set_set, List.set_set,
          List.set_comm _ _ _ hi]
    · have e1 := setFloorN_of_length_le g i1 j1 hge
      have e2 := setFloorN_of_length_le g i2 j1 hge
      rw [e1, e2, e1]
  · conv_lhs => rw [setFloorN, getD_setFloorN_ne g i1 j1 j2 hj]
    conv_rhs => rw [setFloorN, getD_setFloorN_ne g i2 j2 j1 (Ne.symm hj)]
    rw [setFloorN, setFloorN, List.set_comm _ _ _ (Ne.symm hj)]

theorem setFloorN_absorb (g : Grid) (i j : Nat) :
    setFloorN (setFloorN g i j) i j = setFloorN g i j := by
  rcases Nat.lt_or_ge j g.length with hlt | hge
  · conv_lhs => rw [setFloorN, getD_setFloorN_self g i j hlt]
    rw [setFloorN, List.set_set, List.set_set]
  · rw [setFloorN_of_length_le g i j hge, setFloorN_of_length_le g i j hge]

theorem setFloor_comm (g : Grid) (x1 y1 x2 y2 : Int) :
    setFloor (setFloor g x1 y1) x2 y2 = setFloor (setFloor g x2 y2) x1 y1 := by
  by_cases h1 : 0 ≤ x1 ∧ 0 ≤ y1
  · by_cases h2 : 0 ≤ x2 ∧ 0 ≤ y2
    · rw [setFloor_eq_setFloorN g x1 y1 h1.1 h1.2,
        setFloor_eq_setFloorN _ x2 y2 h2.1 h2.2,
        setFloor_eq_setFloorN g x2 y2 h2.1 h2.2,
        setFloor_eq_setFloorN _ x1 y1 h1.1 h1.2,
        setFloorN_comm]
    · have e : ∀ g' : Grid, setFloor g' x2 y2 = g' := fun g' => by
        simp [setFloor, h2]
      rw [e, e]
  · have e : ∀ g' : Grid, setFloor g' x1 y1 = g' := fun g' => by
      simp [setFloor, h1]
    rw [e, e]

theorem setFloor_absorb (g : Grid) (x y : Int) :
    setFloor (setFloor g x y) x y = setFloor g x y := by
  by_cases h : 0 ≤ x ∧ 0 ≤ y
  · rw [setFloor_eq_setFloorN g x y h.1 h.2, setFloor_eq_setFloorN _ x y h.1 h.2,
      setFloorN_absorb]
  · simp [setFloor, h]

theorem carveWrite_comm (g : Grid) (p q : Point) :
    carveWrite (carveWrite g p) q = carveWrite (carveWrite g q) p := by
  unfold carveWrite
  by_cases hp : inBounds p.1 p.2 <;> by_cases hq : inBounds q.1 q.2 <;>
    simp [hp, hq, setFloor_comm]

theorem carveWrite_absorb (g : Grid) (p : Point) :
    carveWrite (carveWrite g p) p = carveWrite g p := by
  unfold carveWrite
  by_cases hp : inBounds p.1 p.2 <;> simp [hp, setFloor_absorb]

theorem carveWrite_applyWrites (g : Grid) (p : Point) (L : List Point) :
    applyWrites (carveWrite g p) L = carveWrite (applyWrites g L) p := by
  induction L generalizing g with
  | nil => rfl
  | cons q L ih =>
    show applyWrites (carveWrite (carveWrite g p) q) L
        = carveWrite (applyWrites (carveWrite g q) L) p
    rw [carveWrite_comm, ih]

theorem applyWrites_idem (g : Grid) (L : List Point) :
    applyWrites (applyWrites g L) L = applyWrites g L := by
  induction L generalizing g with
  | nil => rfl
  | cons p L ih =>
    have hM : carveWrite (applyWrites (carveWrite g p) L) p
        = applyWrites (carveWrite g p) L := by
      rw [← carveWrite_applyWrites, carveWrite_absorb]
    show applyWrites (carveWrite (applyWrites (carveWrite g p) L) p) L
        = applyWrites (carveWrite g p) L
    rw [hM, ih]

theorem applyWrites_append (g : Grid) (L1 L2 : List Point) :
    applyWrites g (L1 ++ L2) = applyWrites (applyWrites g L1) L2 := by
  simp [applyWrites]

/-! ### Monotonicity and shape preservation of carving -/

theorem setFloor_mono (g : Grid) (x y a b : Int) (h : getCell g a b = FLOOR) :
    getCell (setFloor g x y) a b = FLOOR := by
  rcases getCell_setFloor_or g x y a b with h' | h'
  · rw [h']; exact h
  · exact h'

theorem carveWrite_mono (g : Grid) (p : Point) (a b : Int)
    (h : getCell g a b = FLOOR) : getCell (carveWrite g p) a b = FLOOR := by
  unfold carveWrite
  by_cases hp : inBounds p.1 p.2
  · simp only [hp, if_true]; exact setFloor_mono _ _ _ _ _ h
  · simp only [hp]; simpa using h

theorem getCell_carveWrite_or (g : Grid) (p : Point) (a b : Int) :
    getCell (carveWrite g p) a b = getCell g a b ∨
      (inBounds a b = true ∧ getCell (carveWrite g p) a b = FLOOR) := by
  unfold carveWrite
  by_cases hp : inBounds p.1 p.2
  · simp only [hp, if_true]
    by_cases hab : a = p.1 ∧ b = p.2
    · rcases getCell_setFloor_or g p.1 p.2 a b with h | h
      · exact Or.inl h
      · right
        refine ⟨?_, h⟩
        rw [hab.1, hab.2]; exact hp
    · exact Or.inl (getCell_setFloor_ne g p.1 p.2 a b hab)
  · simp only [hp]; left; simp

theorem applyWrites_mono (L : List Point) (g : Grid) (a b : Int)
    (h : getCell g a b = FLOOR) : getCell (applyWrites g L) a b = FLOOR := by
  induction L generalizing g with
  | nil => exact h
  | cons p L ih =>
    show getCell (applyWrites (carveWrite g p) L) a b = FLOOR
    exact ih _ (carveWrite_mono g p a b h)

theorem getCell_applyWrites_or (L : List Point) (g : Grid) (a b : Int) :
    getCell (applyWrites g L) a b = getCell g a b ∨
      (inBounds a b = true ∧ getCell (applyWrites g L) a b = FLOOR) := by
  induction L generalizing g with
  | nil => exact Or.inl rfl
  | cons p L ih =>
    show getCell (applyWrites (carveWrite g p) L) a b = getCell g a b ∨ _
    rcases ih (carveWrite g p) with h | h
    · rcases getCell_carveWrite_or g p a b with h' | ⟨hb, h'⟩
      · exact Or.inl (h.trans h')
      · right
        exact ⟨hb, by
          show getCell (applyWrites (carveWrite g p) L) a b = FLOOR
          exact applyWrites_mono L _ a b h'⟩
    · exact Or.inr h

theorem floorAll_mono (L : List Point) (g : Grid) (a b : Int)
    (h : getCell g a b = FLOOR) : getCell (floorAll g L) a b = FLOOR := by
  induction L generalizing g with
  | nil => exact h
  | cons p L ih =>
    show getCell (floorAll (setFloor g p.1 p.2) L) a b = FLOOR
    exact ih _ (setFloor_mono g p.1 p.2 a b h)

theorem getCell_floorAll_or (L : List Point) (g : Grid) (a b : Int) :
    getCell (floorAll g L) a b = getCell g a b ∨
      getCell (floorAll g L) a b = FLOOR := by
  induction L generalizing g with
  | nil => exact Or.inl rfl
  | cons p L ih =>
    show getCell (floorAll (setFloor g p.1 p.2) L) a b = getCell g a b ∨ _
    rcases ih (setFloor g p.1 p.2) with h | h
    · rcases getCell_setFloor_or g p.1 p.2 a b with h' | h'
      · exact Or.inl (h.trans h')
      · right
        show getCell (floorAll (setFloor g p.1 p.2) L) a b = FLOOR
        exact floorAll_mono L _ a b h'
    · exact Or.inr h

theorem length_carveWrite (g : Grid) (p : Point) :
    (carveWrite g p).length = g.length := by
  unfold carveWrite; split
  · exact length_setFloor g p.1 p.2
  · rfl

theorem getD_row_carveWrite (g : Grid) (p : Point) (j : Nat) :
    ((carveWrite g p).getD j []).length = (g.getD j []).length := by
  unfold carveWrite; split
  · exact getD_row_setFloor g p.1 p.2 j
  · rfl

theorem length_applyWrites (L : List Point) (g : Grid) :
    (applyWrites g L).length = g.length := by
  induction L generalizing g with
  | nil => rfl
  | cons p L ih =>
    show (applyWrites (carveWrite g p) L).length = g.length
    rw [ih, length_carveWrite]

theorem getD_row_applyWrites (L : List Point) (g : Grid) (j : Nat) :
    ((applyWrites g L).getD j []).length = (g.getD j []).length := by
  induction L generalizing g with
  | nil => rfl
  | cons p L ih =>
    show ((applyWrites (carveWrite g p) L).getD j []).length = _
    rw [ih, getD_row_carveWrite]

theorem length_floorAll (L : List Point) (g : Grid) :
    (floorAll g L).length = g.length := by
  induction L generalizing g with
  | nil => rfl
  | cons p L ih =>
    show (floorAll (setFloor g p.1 p.2) L).length = g.length
    rw [ih, length_setFloor]

theorem getD_row_floorAll (L : List Point) (g : Grid) (j : Nat) :
    ((floorAll g L).getD j []).length = (g.getD j []).length := by
  induction L generalizing g with
  | nil => rfl
  | cons p L ih =>
    show ((floorAll (setFloor g p.1 p.2) L).getD j []).length = _
    rw [ih, getD_row_setFloor]

theorem WFGrid_iff (g : Grid) :
    WFGrid g ↔ g.length = HEIGHT ∧ ∀ j, j < HEIGHT → (g.getD j []).length = WIDTH := by
  constructor
  · rintro ⟨hl, hr⟩
    refine ⟨hl, fun j hj => ?_⟩
    have hjl : j < g.length := by omega
    rw [List.getD_eq_getElem?_getD, List.getElem?_eq_getElem hjl]
    exact hr _ (List.getElem_mem hjl)
  · rintro ⟨hl, hr⟩
    refine ⟨hl, fun row hrow => ?_⟩
    rcases List.mem_iff_getElem.mp hrow with ⟨j, hj, rfl⟩
    have := hr j (by omega)
    rwa [List.getD_eq_getElem?_getD, List.getElem?_eq_getElem hj] at this

theorem WFGrid_applyWrites (L : List Point) (g : Grid) (h : WFGrid g) :
    WFGrid (applyWrites g L) := by
  rw [WFGrid_iff] at h ⊢
  refine ⟨by rw [length_applyWrites]; exact h.1, fun j hj => ?_⟩
  rw [getD_row_applyWrites]; exact h.2 j hj

theorem WFGrid_floorAll (L : List Point) (g : Grid) (h : WFGrid g) :
    WFGrid (floorAll g L) := by
  rw [WFGrid_iff] at h ⊢
  refine ⟨by rw [length_floorAll]; exact h.1, fun j hj => ?_⟩
  rw [getD_row_floorAll]; exact h.2 j hj

theorem WFGrid_setFloor (g : Grid) (x y : Int) (h : WFGrid g) :
    WFGrid (setFloor g x y) := by
  rw [WFGrid_iff] at h ⊢
  refine ⟨by rw [length_setFloor]; exact h.1, fun j hj => ?_⟩
  rw [getD_row_setFloor]; exact h.2 j hj

theorem getCell_floorAll_mem (L : List Point) (g : Grid) (a b : Int)
    (hg : WFGrid g) (hmem : (a, b) ∈ L) (ha : 0 ≤ a) (ha' : a < (WIDTH : Int))
    (hb : 0 ≤ b) (hb' : b < (HEIGHT : Int)) :
    getCell (floorAll g L) a b = FLOOR := by
  induction L generalizing g with
  | nil => cases hmem
  | cons p L ih =>
    show getCell (floorAll (setFloor g p.1 p.2) L) a b = FLOOR
    rcases List.mem_cons.mp hmem with heq | hmem'
    · have hpa : p.1 = a := by rw [← heq]
      have hpb : p.2 = b := by rw [← heq]
      subst hpa; subst hpb
      have hrow : p.2.toNat < g.length := by
        rw [(WFGrid_iff g).mp hg |>.1]; omega
      have hcol : p.1.toNat < (g.getD p.2.toNat []).length := by
        rw [(WFGrid_iff g).mp hg |>.2 p.2.toNat (by omega)]; omega
      exact floorAll_mono L _ _ _ (getCell_setFloor_self g p.1 p.2 ha hb hrow hcol)
    · exact ih _ (WFGrid_setFloor g p.1 p.2 hg) hmem'

theorem getCell_applyWrites_mem (L : List Point) (g : Grid) (a b : Int)
    (hg : WFGrid g) (hmem : (a, b) ∈ L) (hin : inBounds a b = true) :
    getCell (applyWrites g L) a b = FLOOR := by
  induction L generalizing g with
  | nil => cases hmem
  | cons p L ih =>
    show getCell (applyWrites (carveWrite g p) L) a b = FLOOR
    rcases List.mem_cons.mp hmem with heq | hmem'
    · have hpa : p.1 = a := by rw [← heq]
      have hpb : p.2 = b := by rw [← heq]
      have hcw : getCell (carveWrite g p) a b = FLOOR := by
        unfold carveWrite
        rw [hpa, hpb, hin, if_pos rfl]
        have hprops : 0 ≤ a ∧ 0 ≤ b ∧ a < (WIDTH : Int) ∧ b < (HEIGHT : Int) := by
          simpa [inBounds, Bool.and_eq_true, decide_eq_true_eq, and_assoc] using hin
        have hrow : b.toNat < g.length := by
          rw [(WFGrid_iff g).mp hg |>.1]; omega
        have hcol : a.toNat < (g.getD b.toNat []).length := by
          rw [(WFGrid_iff g).mp hg |>.2 b.toNat (by omega)]; omega
        exact getCell_setFloor_self g a b hprops.1 hprops.2.1 hrow hcol
      exact applyWrites_mono L _ a b hcw
    · refine ih _ ?_ hmem'
      rw [WFGrid_iff] at hg ⊢
      exact ⟨by rw [length_carveWrite]; exact hg.1,
        fun j hj => by rw [getD_row_carveWrite]; exact hg.2 j hj⟩

theorem carveRoom_eq_floorAll (g : Grid) (r : Room) :
    carveRoom g r = floorAll g (roomCells r) := by
  show carveRoom g r = floorAll g (List.flatten ((List.range r.h.toNat).map
    (fun (dy : Nat) => (List.range r.w.toNat).map
      (fun (dx : Nat) => (r.x + (dx : Int), r.y + (dy : Int))))))
  unfold floorAll
  rw [List.foldl_flatten, List.foldl_map]
  simp only [List.foldl_map]
  rfl

theorem getCell_createGrid (x y : Int) :
    getCell (createGrid WIDTH HEIGHT WALL) x y = WALL := by
  unfold getCell createGrid
  split
  · simp only [List.getD_eq_getElem?_getD, List.getElem?_replicate]
    by_cases h : y.toNat < HEIGHT
    · by_cases h2 : x.toNat < WIDTH <;> simp [h, h2]
    · simp [h]
  · rfl

theorem WFGrid_createGrid : WFGrid (createGrid WIDTH HEIGHT WALL) := by
  constructor
  · simp [createGrid]
  · intro row hrow
    rcases List.eq_of_mem_replicate hrow with rfl
    simp

/-! ### Claim theorems: corridor carving (C6, C7, C9) -/

theorem carveCorridor_eq_applyWrites (q : ℚ) (g : Grid) (x1 y1 x2 y2 : Int) :
    carveCorridor q g x1 y1 x2 y2 =
      if q < 1 / 2 then applyWrites g (hCells x1 x2 y1 ++ vCells y1 y2 x2)
      else applyWrites g (vCells y1 y2 x1 ++ hCells x1 x2 y2) := by
  unfold carveCorridor carveLineH carveLineV
  split <;> rw [applyWrites_append]

/-- C6: carving the same corridor (same endpoints, same run-order draw)
twice produces the same grid as carving it once: re-carving FLOOR cells
is a value-level no-op. -/
theorem C6_carve_idempotent (q : ℚ) (g : Grid) (x1 y1 x2 y2 : Int) :
    carveCorridor q (carveCorridor q g x1 y1 x2 y2) x1 y1 x2 y2 =
      carveCorridor q g x1 y1 x2 y2 := by
  simp only [carveCorridor_eq_applyWrites]
  split <;> exact applyWrites_idem _ _

/-- C7: `carveLineH` and `carveLineV` write only to in-bounds cells and
only the value FLOOR; every other cell is left unchanged, and the grid's
dimensions are never altered, for arbitrary (possibly out-of-bounds)
integer endpoints. -/
theorem C7_carve_lines_clip (g : Grid) (x1 x2 y y1 y2 x a b : Int) :
    (getCell (carveLineH g x1 x2 y) a b = getCell g a b ∨
      (inBounds a b = true ∧ getCell (carveLineH g x1 x2 y) a b = FLOOR)) ∧
    (getCell (carveLineV g y1 y2 x) a b = getCell g a b ∨
      (inBounds a b = true ∧ getCell (carveLineV g y1 y2 x) a b = FLOOR)) ∧
    (carveLineH g x1 x2 y).length = g.length ∧
    (carveLineV g y1 y2 x).length = g.length ∧
    (∀ j : Nat, ((carveLineH g x1 x2 y).getD j []).length = (g.getD j []).length) ∧
    (∀ j : Nat, ((carveLineV g y1 y2 x).getD j []).length = (g.getD j []).length) :=
  ⟨getCell_applyWrites_or _ _ _ _, getCell_applyWrites_or _ _ _ _,
    length_applyWrites _ _, length_applyWrites _ _,
    fun _ => getD_row_applyWrites _ _ _, fun _ => getD_row_applyWrites _ _ _⟩

/-- C9: the connector's center of a room with integer fields is
(x + floor(w/2), y + floor(h/2)). -/
theorem C9_center_formula (r : Room) :
    center r = (r.x + ⌊(r.w : ℚ) / 2⌋, r.y + ⌊(r.h : ℚ) / 2⌋) := by
  unfold center
  rw [Int.floor_int_add, Int.floor_int_add]

/-! ### Claim theorems: generator scenarios and termination (C8, C4) -/

/-- C8: generate(0) returns no rooms and the untouched all-WALL grid,
and the connector returns immediately (leaving the grid unchanged) on an
empty rooms list. -/
theorem C8_generate_zero (rand : Nat → ℚ) :
    generateDungeon rand 0 = (createGrid WIDTH HEIGHT WALL, []) ∧
    (∀ x y : Int, getCell (generateDungeon rand 0).1 x y = WALL) ∧
    (∀ (rand2 : Nat → ℚ) (k : Nat) (g : Grid),
      connectRoomsWithCorridors rand2 k g [] = (g, [], [], false)) := by
  refine ⟨rfl, ?_, fun rand2 k g => rfl⟩
  intro x y
  have h : generateDungeon rand 0 = (createGrid WIDTH HEIGHT WALL, []) := rfl
  rw [h]
  exact getCell_createGrid x y

theorem placeRoomsGo_attempts_le (rand : Nat → ℚ) (roomCount : Nat) :
    ∀ (fuel : Nat) (g : Grid) (rooms : List Room) (attempts k : Nat),
      (placeRoomsGo rand roomCount fuel g rooms attempts k).2.2.1 ≤ attempts + fuel := by
  intro fuel
  induction fuel with
  | zero => intro g rooms attempts k; simp [placeRoomsGo]
  | succ fuel ih =>
    intro g rooms attempts k
    simp only [placeRoomsGo]
    split
    · split
      · exact le_trans (ih _ _ _ _) (by omega)
      · exact le_trans (ih _ _ _ _) (by omega)
    · show attempts ≤ attempts + (fuel + 1)
      omega

theorem placeRoomsGo_length_le (rand : Nat → ℚ) (roomCount : Nat) :
    ∀ (fuel : Nat) (g : Grid) (rooms : List Room) (attempts k : Nat),
      rooms.length ≤ roomCount →
      (placeRoomsGo rand roomCount fuel g rooms attempts k).2.1.length ≤ roomCount := by
  intro fuel
  induction fuel with
  | zero => intro g rooms attempts k h; simpa [placeRoomsGo] using h
  | succ fuel ih =>
    intro g rooms attempts k h
    simp only [placeRoomsGo]
    split
    · split
      · exact ih _ _ _ _ h
      · refine ih _ _ _ _ ?_
        rename_i hlt _
        simp only [List.length_append, List.length_cons, List.length_nil]
        omega
    · simpa using h

/-- C4: for every targetCount, placeRooms performs at most 200 loop
iterations (the attempt counter never exceeds the cap) and returns at
most targetCount rooms; it returns a value (rather than raising) in every
case. -/
theorem C4_attempt_cap (rand : Nat → ℚ) (g : Grid) (roomCount : Nat) :
    (placeRooms rand g roomCount).2.2.1 ≤ ATTEMPT_CAP ∧
    (placeRooms rand g roomCount).2.1.length ≤ roomCount := by
  constructor
  · have h := placeRoomsGo_attempts_le rand roomCount ATTEMPT_CAP g [] 0 0
    simpa [placeRooms] using h
  · have h := placeRoomsGo_length_le rand roomCount ATTEMPT_CAP g [] 0 0 (by simp)
    simpa [placeRooms] using h

/-! ### FLOOR-monotonicity of the whole pipeline (C10) -/

theorem floorSubset_trans {g1 g2 g3 : Grid} (h1 : floorSubset g1 g2)
    (h2 : floorSubset g2 g3) : floorSubset g1 g3 :=
  fun x y h => h2 x y (h1 x y h)

theorem floorSubset_applyWrites (g : Grid) (L : List Point) :
    floorSubset g (applyWrites g L) :=
  fun x y h => applyWrites_mono L g x y h

theorem floorSubset_floorAll (g : Grid) (L : List Point) :
    floorSubset g (floorAll g L) :=
  fun x y h => floorAll_mono L g x y h

theorem floorSubset_carveCorridor (q : ℚ) (g : Grid) (x1 y1 x2 y2 : Int) :
    floorSubset g (carveCorridor q g x1 y1 x2 y2) := by
  rw [carveCorridor_eq_applyWrites]
  split <;> exact floorSubset_applyWrites _ _

theorem floorSubset_carveRoom (g : Grid) (r : Room) :
    floorSubset g (carveRoom g r) := by
  rw [carveRoom_eq_floorAll]
  exact floorSubset_floorAll _ _

theorem floorSubset_placeRoomsGo (rand : Nat → ℚ) (roomCount : Nat) :
    ∀ (fuel : Nat) (g : Grid) (rooms : List Room) (attempts k : Nat),
      floorSubset g (placeRoomsGo rand roomCount fuel g rooms attempts k).1 := by
  intro fuel
  induction fuel with
  | zero => intro g rooms attempts k; exact fun x y h => h
  | succ fuel ih =>
    intro g rooms attempts k
    simp only [placeRoomsGo]
    split
    · split
      · exact ih _ _ _ _
      · exact floorSubset_trans (floorSubset_carveRoom g _) (ih _ _ _ _)
    · exact fun x y h => h

theorem floorSubset_connectLoop (rand : Nat → ℚ) (centers : List Point) :
    ∀ (fuel : Nat) (g : Grid) (connected : List Nat)
      (edges : List (Nat × Nat)) (k : Nat),
      floorSubset g (connectLoop rand centers fuel g connected edges k).1 := by
  intro fuel
  induction fuel with
  | zero => intro g connected edges k; exact fun x y h => h
  | succ fuel ih =>
    intro g connected edges k
    simp only [connectLoop]
    split
    · split
      · exact floorSubset_trans (floorSubset_carveCorridor _ g _ _ _ _) (ih _ _ _ _)
      · exact fun x y h => h
    · exact fun x y h => h

theorem floorSubset_connect (rand : Nat → ℚ) (k : Nat) (g : Grid)
    (rooms : List Room) :
    floorSubset g (connectRoomsWithCorridors rand k g rooms).1 := by
  unfold connectRoomsWithCorridors
  split
  · exact fun x y h => h
  · exact floorSubset_connectLoop rand _ _ g [0] [] k

/-- C10: every grid mutation of the pipeline writes FLOOR (a cell is
either unchanged or becomes FLOOR), and the set of FLOOR cells grows
monotonically through room placement and corridor connection. -/
theorem C10_floor_monotone (rand : Nat → ℚ) (g : Grid) (r : Room)
    (x1 x2 y y1 y2 x : Int) (roomCount k : Nat) (rooms : List Room) :
    (∀ a b : Int, getCell (carveLineH g x1 x2 y) a b = getCell g a b ∨
        getCell (carveLineH g x1 x2 y) a b = FLOOR) ∧
    (∀ a b : Int, getCell (carveLineV g y1 y2 x) a b = getCell g a b ∨
        getCell (carveLineV g y1 y2 x) a b = FLOOR) ∧
    (∀ a b : Int, getCell (carveRoom g r) a b = getCell g a b ∨
        getCell (carveRoom g r) a b = FLOOR) ∧
    floorSubset g (carveLineH g x1 x2 y) ∧
    floorSubset g (carveLineV g y1 y2 x) ∧
    floorSubset g (carveRoom g r) ∧
    floorSubset g (placeRooms rand g roomCount).1 ∧
    floorSubset g (connectRoomsWithCorridors rand k g rooms).1 ∧
    floorSubset (placeRooms rand (createGrid WIDTH HEIGHT WALL) roomCount).1
      (generateDungeon rand roomCount).1 := by
  refine ⟨?_, ?_, ?_, floorSubset_applyWrites _ _, floorSubset_applyWrites _ _,
    floorSubset_carveRoom _ _, floorSubset_placeRoomsGo _ _ _ _ _ _ _,
    floorSubset_connect _ _ _ _, ?_⟩
  · intro a b
    rcases getCell_applyWrites_or (hCells x1 x2 y) g a b with h | ⟨_, h⟩
    · exact Or.inl h
    · exact Or.inr h
  · intro a b
    rcases getCell_applyWrites_or (vCells y1 y2 x) g a b with h | ⟨_, h⟩
    · exact Or.inl h
    · exact Or.inr h
  · intro a b
    rw [carveRoom_eq_floorAll]
    exact getCell_floorAll_or (roomCells r) g a b
  · exact floorSubset_connect rand _ _ _

/-! ### Room placement invariants (C2, C5) -/

theorem roomsOverlap_eq_false_iff (a b : Room) :
    roomsOverlap a b = false ↔
      (a.x + a.w + 1 ≤ b.x ∨ b.x + b.w + 1 ≤ a.x ∨
       a.y + a.h + 1 ≤ b.y ∨ b.y + b.h + 1 ≤ a.y) := by
  simp [roomsOverlap]
  omega

theorem roomsOverlap_eq_true_iff (a b : Room) :
    roomsOverlap a b = true ↔
      (b.x < a.x + a.w + 1 ∧ a.x < b.x + b.w + 1 ∧
       b.y < a.y + a.h + 1 ∧ a.y < b.y + b.h + 1) := by
  simp [roomsOverlap]
  omega

theorem roomsOverlap_symm_false (a b : Room) (h : roomsOverlap a b = false) :
    roomsOverlap b a = false := by
  rw [roomsOverlap_eq_false_iff] at h ⊢
  omega

theorem not_boxesIntersect_of_overlap_false (a b : Room)
    (h : roomsOverlap a b = false) : ¬ expandedBoxesIntersect a b := by
  rw [roomsOverlap_eq_false_iff] at h
  rintro ⟨px, py, h1, h2⟩
  omega

theorem roomsOverlap_iff_boxes (a b : Room) (haw : 0 ≤ a.w) (hah : 0 ≤ a.h)
    (hbw : 0 ≤ b.w) (hbh : 0 ≤ b.h) :
    roomsOverlap a b = true ↔ expandedBoxesIntersect a b := by
  rw [roomsOverlap_eq_true_iff]
  constructor
  · intro h
    rcases le_total a.x b.x with h1 | h1 <;> rcases le_total a.y b.y with h2 | h2
    · exact ⟨b.x, b.y, by omega, by omega⟩
    · exact ⟨b.x, a.y, by omega, by omega⟩
    · exact ⟨a.x, b.y, by omega, by omega⟩
    · exact ⟨a.x, a.y, by omega, by omega⟩
  · rintro ⟨px, py, h1, h2⟩
    omega

theorem placeRoomsGo_pairwise (rand : Nat → ℚ) (roomCount : Nat) :
    ∀ (fuel : Nat) (g : Grid) (rooms : List Room) (attempts k : Nat),
      rooms.Pairwise (fun r1 r2 => roomsOverlap r1 r2 = false) →
      (placeRoomsGo rand roomCount fuel g rooms attempts k).2.1.Pairwise
        (fun r1 r2 => roomsOverlap r1 r2 = false) := by
  intro fuel
  induction fuel with
  | zero => intro g rooms attempts k h; exact h
  | succ fuel ih =>
    intro g rooms attempts k h
    simp only [placeRoomsGo]
    split
    · split
      · exact ih _ _ _ _ h
      · rename_i hany
        refine ih _ _ _ _ ?_
        rw [List.pairwise_append]
        refine ⟨h, List.pairwise_singleton _ _, ?_⟩
        intro r hr c hc
        rw [List.mem_singleton] at hc
        subst hc
        simp only [List.any_eq_true, not_exists, not_and] at hany
        have := hany r hr
        simp only [Bool.not_eq_true] at this
        exact this
    · exact h

theorem getD_eq_getElem {α : Type} (l : List α) (i : Nat) (d : α)
    (h : i < l.length) : l.getD i d = l[i] := by
  simp [List.getD_eq_getElem?_getD, List.getElem?_eq_getElem h]

/-- C2: distinct rooms returned by placeRooms never overlap: their
1-cell-expanded bounding boxes are disjoint, equivalently `roomsOverlap`
is false on every distinct pair. -/
theorem C2_no_overlap (rand : Nat → ℚ) (g : Grid) (roomCount i j : Nat)
    (hi : i < (placeRooms rand g roomCount).2.1.length)
    (hj : j < (placeRooms rand g roomCount).2.1.length) (hij : i ≠ j) :
    roomsOverlap ((placeRooms rand g roomCount).2.1.getD i ⟨0, 0, 0, 0⟩)
        ((placeRooms rand g roomCount).2.1.getD j ⟨0, 0, 0, 0⟩) = false ∧
    ¬ expandedBoxesIntersect
        ((placeRooms rand g roomCount).2.1.getD i ⟨0, 0, 0, 0⟩)
        ((placeRooms rand g roomCount).2.1.getD j ⟨0, 0, 0, 0⟩) := by
  have hp : (placeRooms rand g roomCount).2.1.Pairwise
      (fun r1 r2 => roomsOverlap r1 r2 = false) :=
    placeRoomsGo_pairwise rand roomCount ATTEMPT_CAP g [] 0 0 List.Pairwise.nil
  rw [List.pairwise_iff_getElem] at hp
  have hfalse : roomsOverlap ((placeRooms rand g roomCount).2.1.getD i ⟨0, 0, 0, 0⟩)
      ((placeRooms rand g roomCount).2.1.getD j ⟨0, 0, 0, 0⟩) = false := by
    rw [getD_eq_getElem _ _ _ hi, getD_eq_getElem _ _ _ hj]
    rcases Nat.lt_or_ge i j with hlt | hge
    · exact hp i j hi hj hlt
    · have hlt : j < i := by omega
      exact roomsOverlap_symm_false _ _ (hp j i hj hi hlt)
  exact ⟨hfalse, not_boxesIntersect_of_overlap_false _ _ hfalse⟩

theorem placeRoomsGo_snd_grid (rand : Nat → ℚ) (roomCount : Nat) :
    ∀ (fuel : Nat) (g g' : Grid) (rooms : List Room) (attempts k : Nat),
      (placeRoomsGo rand roomCount fuel g rooms attempts k).2
        = (placeRoomsGo rand roomCount fuel g' rooms attempts k).2 := by
  intro fuel
  induction fuel with
  | zero => intro g g' rooms attempts k; rfl
  | succ fuel ih =>
    intro g g' rooms attempts k
    simp only [placeRoomsGo]
    split
    · split
      · exact ih _ _ _ _ _
      · exact ih _ _ _ _ _
    · rfl

/-- Witness for C2: the scripted stream `randTwoRooms` places exactly the
two rooms (2,2,4,2) and (28,29,8,6); the claim holds at indices 0 and 1. -/
theorem C2_no_overlap_witness :
    roomsOverlap ((placeRooms randTwoRooms (createGrid WIDTH HEIGHT WALL) 2).2.1.getD 0 ⟨0, 0, 0, 0⟩)
        ((placeRooms randTwoRooms (createGrid WIDTH HEIGHT WALL) 2).2.1.getD 1 ⟨0, 0, 0, 0⟩) = false ∧
    ¬ expandedBoxesIntersect
        ((placeRooms randTwoRooms (createGrid WIDTH HEIGHT WALL) 2).2.1.getD 0 ⟨0, 0, 0, 0⟩)
        ((placeRooms randTwoRooms (createGrid WIDTH HEIGHT WALL) 2).2.1.getD 1 ⟨0, 0, 0, 0⟩) := by
  have hrooms : (placeRooms randTwoRooms (createGrid WIDTH HEIGHT WALL) 2).2.1
      = [⟨2, 2, 4, 2⟩, ⟨28, 29, 8, 6⟩] := by
    have hswap : (placeRooms randTwoRooms (createGrid WIDTH HEIGHT WALL) 2).2.1
        = (placeRooms randTwoRooms [] 2).2.1 :=
      congrArg (fun t => t.1)
        (placeRoomsGo_snd_grid randTwoRooms 2 ATTEMPT_CAP _ [] [] 0 0)
    rw [hswap]
    unfold placeRooms ATTEMPT_CAP randTwoRooms
    rw [show (200 : Nat) = 199 + 1 from rfl, placeRoomsGo]
    norm_num [randInt, ROOM_W_MIN, ROOM_W_MAX, ROOM_H_MIN, ROOM_H_MAX, WIDTH, HEIGHT]
    rw [show (199 : Nat) = 198 + 1 from rfl, placeRoomsGo]
    norm_num [randInt, ROOM_W_MIN, ROOM_W_MAX, ROOM_H_MIN, ROOM_H_MAX, WIDTH, HEIGHT,
      roomsOverlap]
    rw [show (198 : Nat) = 197 + 1 from rfl, placeRoomsGo]
    norm_num
  exact C2_no_overlap randTwoRooms (createGrid WIDTH HEIGHT WALL) 2 0 1
    (by rw [hrooms]; norm_num) (by rw [hrooms]; norm_num) (by norm_num)

theorem randInt_bounds (q : ℚ) (lo hi : Int) (h0 : 0 ≤ q) (h1 : q < 1)
    (hle : lo ≤ hi) : lo ≤ randInt q lo hi ∧ randInt q lo hi ≤ hi := by
  unfold randInt
  have hN : (0 : ℚ) < ((hi - lo + 1 : Int) : ℚ) := by
    have : (0 : Int) < hi - lo + 1 := by omega
    exact_mod_cast this
  constructor
  · have hf : (0 : Int) ≤ ⌊q * ((hi - lo + 1 : Int) : ℚ)⌋ :=
      Int.floor_nonneg.mpr (mul_nonneg h0 (le_of_lt hN))
    omega
  · have hlt : q * ((hi - lo + 1 : Int) : ℚ) < ((hi - lo + 1 : Int) : ℚ) := by
      calc q * ((hi - lo + 1 : Int) : ℚ)
          < 1 * ((hi - lo + 1 : Int) : ℚ) := mul_lt_mul_of_pos_right h1 hN
        _ = ((hi - lo + 1 : Int) : ℚ) := one_mul _
    have hf : ⌊q * ((hi - lo + 1 : Int) : ℚ)⌋ < hi - lo + 1 :=
      Int.floor_lt.mpr (by exact_mod_cast hlt)
    omega

theorem placeRoomsGo_inBounds (rand : Nat → ℚ) (hrand : ValidRand rand)
    (roomCount : Nat) :
    ∀ (fuel : Nat) (g : Grid) (rooms : List Room) (attempts k : Nat),
      (∀ r ∈ rooms, RoomInBounds r) →
      ∀ r ∈ (placeRoomsGo rand roomCount fuel g rooms attempts k).2.1,
        RoomInBounds r := by
  intro fuel
  induction fuel with
  | zero => intro g rooms attempts k h; exact h
  | succ fuel ih =>
    intro g rooms attempts k h
    simp only [placeRoomsGo]
    split
    · split
      · exact ih _ _ _ _ h
      · refine ih _ _ _ _ ?_
        intro r hr
        rw [List.mem_append, List.mem_singleton] at hr
        rcases hr with hr | rfl
        · exact h r hr
        · have hw := randInt_bounds (rand k) ROOM_W_MIN ROOM_W_MAX
            (hrand k).1 (hrand k).2 (by norm_num [ROOM_W_MIN, ROOM_W_MAX])
          have hh := randInt_bounds (rand (k + 1)) ROOM_H_MIN ROOM_H_MAX
            (hrand (k + 1)).1 (hrand (k + 1)).2
            (by norm_num [ROOM_H_MIN, ROOM_H_MAX])
          have hx := randInt_bounds (rand (k + 2)) 2
            ((WIDTH : Int) - randInt (rand k) ROOM_W_MIN ROOM_W_MAX - 3)
            (hrand (k + 2)).1 (hrand (k + 2)).2
            (by simp only [ROOM_W_MIN, ROOM_W_MAX, WIDTH] at hw ⊢; omega)
          have hy := randInt_bounds (rand (k + 3)) 2
            ((HEIGHT : Int) - randInt (rand (k + 1)) ROOM_H_MIN ROOM_H_MAX - 3)
            (hrand (k + 3)).1 (hrand (k + 3)).2
            (by simp only [ROOM_H_MIN, ROOM_H_MAX, HEIGHT] at hh ⊢; omega)
          refine ⟨hx.1, hy.1, ?_, ?_, hw.1, hw.2, hh.1, hh.2⟩
          · have h5 := hx.2
            dsimp only
            omega
          · have h5 := hy.2
            dsimp only
            omega
    · exact h

/-- C5: every room returned by placeRooms satisfies the margin bounds
2 ≤ x, 2 ≤ y, x + w ≤ WIDTH − 3, y + h ≤ HEIGHT − 3, so its footprint
lies fully inside the grid. -/
theorem C5_room_margins (rand : Nat → ℚ) (g : Grid) (roomCount : Nat)
    (hrand : ValidRand rand) :
    ∀ r ∈ (placeRooms rand g roomCount).2.1,
      2 ≤ r.x ∧ 2 ≤ r.y ∧ r.x + r.w ≤ (WIDTH : Int) - 3 ∧
        r.y + r.h ≤ (HEIGHT : Int) - 3 ∧
        ∀ p : Point, inFootprint r p → inBounds p.1 p.2 = true := by
  intro r hr
  have hb := placeRoomsGo_inBounds rand hrand roomCount ATTEMPT_CAP g [] 0 0
    (by intro r hr; cases hr) r hr
  obtain ⟨h1, h2, h3, h4, _, _, _, _⟩ := hb
  refine ⟨h1, h2, h3, h4, ?_⟩
  intro p hp
  obtain ⟨hp1, hp2, hp3, hp4⟩ := hp
  simp only [inBounds, Bool.and_eq_true, decide_eq_true_eq]
  simp only [WIDTH, HEIGHT] at h3 h4 ⊢
  omega

/-- Witness for C5: the all-zero stream is a valid random source and the
margin bounds hold for the single room it places. -/
theorem C5_room_margins_witness :
    ValidRand randZero ∧
    ∀ r ∈ (placeRooms randZero (createGrid WIDTH HEIGHT WALL) 1).2.1,
      2 ≤ r.x ∧ 2 ≤ r.y ∧ r.x + r.w ≤ (WIDTH : Int) - 3 ∧
        r.y + r.h ≤ (HEIGHT : Int) - 3 ∧
        ∀ p : Point, inFootprint r p → inBounds p.1 p.2 = true := by
  have hv : ValidRand randZero := fun n => ⟨le_refl 0, by norm_num [randZero]⟩
  exact ⟨hv, C5_room_margins randZero (createGrid WIDTH HEIGHT WALL) 1 hv⟩

/-! ### FLOOR-path connectivity machinery -/

theorem FloorConn.src_floor {g : Grid} {p q : Point} (h : FloorConn g p q) :
    isFloor g p := by
  induction h with
  | refl => rename_i hp; exact hp
  | step => rename_i hpq hadj hr ih; exact ih

theorem FloorConn.dst_floor {g : Grid} {p q : Point} (h : FloorConn g p q) :
    isFloor g q := by
  cases h with
  | refl => rename_i hp; exact hp
  | step => rename_i hpq hadj hr; exact hr

theorem FloorConn.trans {g : Grid} {p q r : Point} (h1 : FloorConn g p q)
    (h2 : FloorConn g q r) : FloorConn g p r := by
  induction h2 with
  | refl => exact h1
  | step => rename_i hst hadj hu ih; exact FloorConn.step _ _ _ ih hadj hu

theorem adjacent_symm {p q : Point} (h : adjacent p q) : adjacent q p := by
  unfold adjacent at h ⊢
  tauto

theorem FloorConn.symm {g : Grid} {p q : Point} (h : FloorConn g p q) :
    FloorConn g q p := by
  induction h with
  | refl => rename_i hp; exact FloorConn.refl _ hp
  | step =>
    rename_i hpq hadj hr ih
    exact FloorConn.trans
      (FloorConn.step _ _ _ (FloorConn.refl _ hr) (adjacent_symm hadj)
        hpq.dst_floor) ih

theorem FloorConn.mono {g g' : Grid} (hs : floorSubset g g') {p q : Point}
    (h : FloorConn g p q) : FloorConn g' p q := by
  induction h with
  | refl => rename_i hp; exact FloorConn.refl _ (hs _ _ hp)
  | step =>
    rename_i hpq hadj hr ih
    exact FloorConn.step _ _ _ ih hadj (hs _ _ hr)

theorem floorConn_horizontal (g : Grid) (y a : Int) (k : Nat)
    (h : ∀ i : Nat, i ≤ k → getCell g (a + (i : Int)) y = FLOOR) :
    FloorConn g (a, y) (a + (k : Int), y) := by
  induction k with
  | zero =>
    have := h 0 (le_refl 0)
    simpa using FloorConn.refl (p := ((a : Int), y)) (by simpa [isFloor] using this)
  | succ k ih =>
    have hconn := ih (fun i hi => h i (by omega))
    have hadj : adjacent (a + (k : Int), y) (a + ((k + 1 : Nat) : Int), y) := by
      right
      constructor
      · rfl
      · right; push_cast; ring
    have hfl : isFloor g (a + ((k + 1 : Nat) : Int), y) := h (k + 1) (le_refl _)
    exact FloorConn.step _ _ _ hconn hadj hfl

theorem floorConn_vertical (g : Grid) (x a : Int) (k : Nat)
    (h : ∀ i : Nat, i ≤ k → getCell g x (a + (i : Int)) = FLOOR) :
    FloorConn g (x, a) (x, a + (k : Int)) := by
  induction k with
  | zero =>
    have := h 0 (le_refl 0)
    simpa using FloorConn.refl (p := (x, (a : Int))) (by simpa [isFloor] using this)
  | succ k ih =>
    have hconn := ih (fun i hi => h i (by omega))
    have hadj : adjacent (x, a + (k : Int)) (x, a + ((k + 1 : Nat) : Int)) := by
      left
      constructor
      · rfl
      · right; push_cast; ring
    have hfl : isFloor g (x, a + ((k + 1 : Nat) : Int)) := h (k + 1) (le_refl _)
    exact FloorConn.step _ _ _ hconn hadj hfl

theorem inBounds_iff (x y : Int) :
    inBounds x y = true ↔
      0 ≤ x ∧ 0 ≤ y ∧ x < (WIDTH : Int) ∧ y < (HEIGHT : Int) := by
  simp only [inBounds, Bool.and_eq_true, decide_eq_true_eq, ge_iff_le]
  tauto

theorem mem_hCells (x1 x2 y c : Int) (hlo : min x1 x2 ≤ c) (hhi : c ≤ max x1 x2) :
    (c, y) ∈ hCells x1 x2 y := by
  unfold hCells
  rcases le_total x1 x2 with h | h
  · simp only [if_pos h, List.mem_map, List.mem_range]
    refine ⟨(c - x1).toNat, by omega, ?_⟩
    rw [min_eq_left h] at hlo
    rw [max_eq_right h] at hhi
    have : x1 + ((c - x1).toNat : Int) = c := by omega
    rw [this]
  · rw [min_eq_right h] at hlo
    rw [max_eq_left h] at hhi
    by_cases heq : x1 ≤ x2
    · simp only [if_pos heq, List.mem_map, List.mem_range]
      refine ⟨(c - x1).toNat, by omega, ?_⟩
      have : x1 + ((c - x1).toNat : Int) = c := by omega
      rw [this]
    · simp only [if_neg heq, List.mem_map, List.mem_range]
      refine ⟨(c - x2).toNat, by omega, ?_⟩
      have : x2 + ((c - x2).toNat : Int) = c := by omega
      rw [this]

theorem mem_vCells (y1 y2 x c : Int) (hlo : min y1 y2 ≤ c) (hhi : c ≤ max y1 y2) :
    (x, c) ∈ vCells y1 y2 x := by
  unfold vCells
  rcases le_total y1 y2 with h | h
  · simp only [if_pos h, List.mem_map, List.mem_range]
    refine ⟨(c - y1).toNat, by omega, ?_⟩
    rw [min_eq_left h] at hlo
    rw [max_eq_right h] at hhi
    have : y1 + ((c - y1).toNat : Int) = c := by omega
    rw [this]
  · rw [min_eq_right h] at hlo
    rw [max_eq_left h] at hhi
    by_cases heq : y1 ≤ y2
    · simp only [if_pos heq, List.mem_map, List.mem_range]
      refine ⟨(c - y1).toNat, by omega, ?_⟩
      have : y1 + ((c - y1).toNat : Int) = c := by omega
      rw [this]
    · simp only [if_neg heq, List.mem_map, List.mem_range]
      refine ⟨(c - y2).toNat, by omega, ?_⟩
      have : y2 + ((c - y2).toNat : Int) = c := by omega
      rw [this]

theorem carveLineH_floor (g : Grid) (x1 x2 y : Int) (hg : WFGrid g)
    (h1 : inBounds x1 y = true) (h2 : inBounds x2 y = true) (c : Int)
    (hlo : min x1 x2 ≤ c) (hhi : c ≤ max x1 x2) :
    getCell (carveLineH g x1 x2 y) c y = FLOOR := by
  rw [inBounds_iff] at h1 h2
  have hcin : inBounds c y = true := by
    rw [inBounds_iff]
    constructor
    · rcases le_total x1 x2 with h | h
      · rw [min_eq_left h] at hlo; omega
      · rw [min_eq_right h] at hlo; omega
    · refine ⟨h1.2.1, ?_, h1.2.2.2⟩
      rcases le_total x1 x2 with h | h
      · rw [max_eq_right h] at hhi; omega
      · rw [max_eq_left h] at hhi; omega
  exact getCell_applyWrites_mem _ g c y hg (mem_hCells x1 x2 y c hlo hhi) hcin

theorem carveLineV_floor (g : Grid) (y1 y2 x : Int) (hg : WFGrid g)
    (h1 : inBounds x y1 = true) (h2 : inBounds x y2 = true) (c : Int)
    (hlo : min y1 y2 ≤ c) (hhi : c ≤ max y1 y2) :
    getCell (carveLineV g y1 y2 x) x c = FLOOR := by
  rw [inBounds_iff] at h1 h2
  have hcin : inBounds x c = true := by
    rw [inBounds_iff]
    refine ⟨h1.1, ?_, h1.2.2.1, ?_⟩
    · rcases le_total y1 y2 with h | h
      · rw [min_eq_left h] at hlo; omega
      · rw [min_eq_right h] at hlo; omega
    · rcases le_total y1 y2 with h | h
      · rw [max_eq_right h] at hhi; omega
      · rw [max_eq_left h] at hhi; omega
  exact getCell_applyWrites_mem _ g x c hg (mem_vCells y1 y2 x c hlo hhi) hcin

theorem carveLineH_conn (g : Grid) (x1 x2 y : Int) (hg : WFGrid g)
    (h1 : inBounds x1 y = true) (h2 : inBounds x2 y = true) :
    FloorConn (carveLineH g x1 x2 y) (x1, y) (x2, y) := by
  rcases le_total x1 x2 with h | h
  · have hc := floorConn_horizontal (carveLineH g x1 x2 y) y x1 (x2 - x1).toNat
      (fun i hi => carveLineH_floor g x1 x2 y hg h1 h2 _
        (by rw [min_eq_left h]; omega) (by rw [max_eq_right h]; omega))
    have he : x1 + (((x2 - x1).toNat : Nat) : Int) = x2 := by omega
    rwa [he] at hc
  · have hc := floorConn_horizontal (carveLineH g x1 x2 y) y x2 (x1 - x2).toNat
      (fun i hi => carveLineH_floor g x1 x2 y hg h1 h2 _
        (by rw [min_eq_right h]; omega) (by rw [max_eq_left h]; omega))
    have he : x2 + (((x1 - x2).toNat : Nat) : Int) = x1 := by omega
    rw [he] at hc
    exact hc.symm

theorem carveLineV_conn (g : Grid) (y1 y2 x : Int) (hg : WFGrid g)
    (h1 : inBounds x y1 = true) (h2 : inBounds x y2 = true) :
    FloorConn (carveLineV g y1 y2 x) (x, y1) (x, y2) := by
  rcases le_total y1 y2 with h | h
  · have hc := floorConn_vertical (carveLineV g y1 y2 x) x y1 (y2 - y1).toNat
      (fun i hi => carveLineV_floor g y1 y2 x hg h1 h2 _
        (by rw [min_eq_left h]; omega) (by rw [max_eq_right h]; omega))
    have he : y1 + (((y2 - y1).toNat : Nat) : Int) = y2 := by omega
    rwa [he] at hc
  · have hc := floorConn_vertical (carveLineV g y1 y2 x) x y2 (y1 - y2).toNat
      (fun i hi => carveLineV_floor g y1 y2 x hg h1 h2 _
        (by rw [min_eq_right h]; omega) (by rw [max_eq_left h]; omega))
    have he : y2 + (((y1 - y2).toNat : Nat) : Int) = y1 := by omega
    rw [he] at hc
    exact hc.symm

theorem WFGrid_carveLineH (g : Grid) (x1 x2 y : Int) (hg : WFGrid g) :
    WFGrid (carveLineH g x1 x2 y) :=
  WFGrid_applyWrites _ g hg

theorem WFGrid_carveLineV (g : Grid) (y1 y2 x : Int) (hg : WFGrid g) :
    WFGrid (carveLineV g y1 y2 x) :=
  WFGrid_applyWrites _ g hg

theorem WFGrid_carveCorridor (q : ℚ) (g : Grid) (x1 y1 x2 y2 : Int)
    (hg : WFGrid g) : WFGrid (carveCorridor q g x1 y1 x2 y2) := by
  rw [carveCorridor_eq_applyWrites]
  split <;> exact WFGrid_applyWrites _ g hg

theorem carveCorridor_conn (q : ℚ) (g : Grid) (x1 y1 x2 y2 : Int)
    (hg : WFGrid g) (h1 : inBounds x1 y1 = true) (h2 : inBounds x2 y2 = true) :
    FloorConn (carveCorridor q g x1 y1 x2 y2) (x1, y1) (x2, y2) := by
  rw [inBounds_iff] at h1 h2
  unfold carveCorridor
  split
  · have hcorner : inBounds x2 y1 = true := by rw [inBounds_iff]; tauto
    have hA : FloorConn (carveLineH g x1 x2 y1) (x1, y1) (x2, y1) :=
      carveLineH_conn g x1 x2 y1 hg (by rw [inBounds_iff]; tauto)
        (by rw [inBounds_iff]; tauto)
    have hB : FloorConn (carveLineV (carveLineH g x1 x2 y1) y1 y2 x2)
        (x2, y1) (x2, y2) :=
      carveLineV_conn _ y1 y2 x2 (WFGrid_carveLineH g x1 x2 y1 hg) hcorner
        (by rw [inBounds_iff]; tauto)
    exact FloorConn.trans
      (hA.mono (floorSubset_applyWrites _ _)) hB
  · have hcorner : inBounds x1 y2 = true := by rw [inBounds_iff]; tauto
    have hA : FloorConn (carveLineV g y1 y2 x1) (x1, y1) (x1, y2) :=
      carveLineV_conn g y1 y2 x1 hg (by rw [inBounds_iff]; tauto)
        (by rw [inBounds_iff]; tauto)
    have hB : FloorConn (carveLineH (carveLineV g y1 y2 x1) x1 x2 y2)
        (x1, y2) (x2, y2) :=
      carveLineH_conn _ x1 x2 y2 (WFGrid_carveLineV g y1 y2 x1 hg) hcorner
        (by rw [inBounds_iff]; tauto)
    exact FloorConn.trans
      (hA.mono (floorSubset_applyWrites _ _)) hB

/-! ### Room centers and footprints -/

theorem center_eq (r : Room) :
    center r = (r.x + ⌊(r.w : ℚ) / 2⌋, r.y + ⌊(r.h : ℚ) / 2⌋) := by
  unfold center
  rw [Int.floor_int_add, Int.floor_int_add]

theorem half_floor_bounds (w : Int) (hw : 1 ≤ w) :
    0 ≤ ⌊(w : ℚ) / 2⌋ ∧ ⌊(w : ℚ) / 2⌋ ≤ w - 1 := by
  have hwq : (0 : ℚ) < (w : ℚ) := by exact_mod_cast (by omega : (0 : Int) < w)
  constructor
  · exact Int.floor_nonneg.mpr (by positivity)
  · have h2 : ⌊(w : ℚ) / 2⌋ < w := Int.floor_lt.mpr (by
      calc (w : ℚ) / 2 < (w : ℚ) := half_lt_self hwq
        _ = ((w : Int) : ℚ) := rfl)
    omega

theorem center_in_footprint (r : Room) (hw : 1 ≤ r.w) (hh : 1 ≤ r.h) :
    inFootprint r (center r) := by
  rw [center_eq]
  obtain ⟨hw0, hw1⟩ := half_floor_bounds r.w hw
  obtain ⟨hh0, hh1⟩ := half_floor_bounds r.h hh
  exact ⟨by omega, by omega, by omega, by omega⟩

theorem footprint_inBounds (r : Room) (hb : RoomInBounds r) (p : Point)
    (hp : inFootprint r p) : inBounds p.1 p.2 = true := by
  obtain ⟨h1, h2, h3, h4, _, _, _, _⟩ := hb
  obtain ⟨hp1, hp2, hp3, hp4⟩ := hp
  rw [inBounds_iff]
  simp only [WIDTH, HEIGHT] at h3 h4 ⊢
  push_cast at h3 h4 ⊢
  omega

theorem mem_roomCells (r : Room) (p : Point) (hfp : inFootprint r p) :
    p ∈ roomCells r := by
  obtain ⟨h1, h2, h3, h4⟩ := hfp
  unfold roomCells
  rw [List.mem_flatMap]
  refine ⟨(p.2 - r.y).toNat, by rw [List.mem_range]; omega, ?_⟩
  rw [List.mem_map]
  refine ⟨(p.1 - r.x).toNat, by rw [List.mem_range]; omega, ?_⟩
  have e1 : r.x + (((p.1 - r.x).toNat : Nat) : Int) = p.1 := by omega
  have e2 : r.y + (((p.2 - r.y).toNat : Nat) : Int) = p.2 := by omega
  rw [e1, e2]

theorem WFGrid_carveRoom (g : Grid) (r : Room) (hg : WFGrid g) :
    WFGrid (carveRoom g r) := by
  rw [carveRoom_eq_floorAll]
  exact WFGrid_floorAll _ _ hg

theorem carveRoom_footprint (g : Grid) (r : Room) (hg : WFGrid g)
    (hb : RoomInBounds r) (p : Point) (hp : inFootprint r p) :
    getCell (carveRoom g r) p.1 p.2 = FLOOR := by
  rw [carveRoom_eq_floorAll]
  have hin := footprint_inBounds r hb p hp
  rw [inBounds_iff] at hin
  have hmem : (p.1, p.2) ∈ roomCells r := by
    have := mem_roomCells r p hp
    simpa using this
  exact getCell_floorAll_mem _ g p.1 p.2 hg hmem hin.1 hin.2.2.1 hin.2.1 hin.2.2.2

theorem candidate_inBounds (rand : Nat → ℚ) (hrand : ValidRand rand) (k : Nat) :
    RoomInBounds
      ⟨randInt (rand (k + 2)) 2
          ((WIDTH : Int) - randInt (rand k) ROOM_W_MIN ROOM_W_MAX - 3),
        randInt (rand (k + 3)) 2
          ((HEIGHT : Int) - randInt (rand (k + 1)) ROOM_H_MIN ROOM_H_MAX - 3),
        randInt (rand k) ROOM_W_MIN ROOM_W_MAX,
        randInt (rand (k + 1)) ROOM_H_MIN ROOM_H_MAX⟩ := by
  have hw := randInt_bounds (rand k) ROOM_W_MIN ROOM_W_MAX
    (hrand k).1 (hrand k).2 (by norm_num [ROOM_W_MIN, ROOM_W_MAX])
  have hh := randInt_bounds (rand (k + 1)) ROOM_H_MIN ROOM_H_MAX
    (hrand (k + 1)).1 (hrand (k + 1)).2 (by norm_num [ROOM_H_MIN, ROOM_H_MAX])
  have hx := randInt_bounds (rand (k + 2)) 2
    ((WIDTH : Int) - randInt (rand k) ROOM_W_MIN ROOM_W_MAX - 3)
    (hrand (k + 2)).1 (hrand (k + 2)).2
    (by simp only [ROOM_W_MIN, ROOM_W_MAX, WIDTH] at hw ⊢; push_cast; omega)
  have hy := randInt_bounds (rand (k + 3)) 2
    ((HEIGHT : Int) - randInt (rand (k + 1)) ROOM_H_MIN ROOM_H_MAX - 3)
    (hrand (k + 3)).1 (hrand (k + 3)).2
    (by simp only [ROOM_H_MIN, ROOM_H_MAX, HEIGHT] at hh ⊢; push_cast; omega)
  refine ⟨hx.1, hy.1, ?_, ?_, hw.1, hw.2, hh.1, hh.2⟩
  · have h5 := hx.2
    dsimp only
    omega
  · have h5 := hy.2
    dsimp only
    omega

theorem placeRoomsGo_state (rand : Nat → ℚ) (hrand : ValidRand rand)
    (roomCount : Nat) :
    ∀ (fuel : Nat) (g : Grid) (rooms : List Room) (attempts k : Nat),
      WFGrid g →
      (∀ r ∈ rooms, RoomInBounds r) →
      (∀ r ∈ rooms, ∀ p : Point, inFootprint r p → getCell g p.1 p.2 = FLOOR) →
      WFGrid (placeRoomsGo rand roomCount fuel g rooms attempts k).1 ∧
      (∀ r ∈ (placeRoomsGo rand roomCount fuel g rooms attempts k).2.1,
        ∀ p : Point, inFootprint r p →
          getCell (placeRoomsGo rand roomCount fuel g rooms attempts k).1
            p.1 p.2 = FLOOR) := by
  intro fuel
  induction fuel with
  | zero => intro g rooms attempts k hg hb hf; exact ⟨hg, hf⟩
  | succ fuel ih =>
    intro g rooms attempts k hg hb hf
    simp only [placeRoomsGo]
    split
    · split
      · exact ih _ _ _ _ hg hb hf
      · have hcand := candidate_inBounds rand hrand k
        refine ih _ _ _ _ (WFGrid_carveRoom g _ hg) ?_ ?_
        · intro r hr
          rw [List.mem_append, List.mem_singleton] at hr
          rcases hr with hr | rfl
          · exact hb r hr
          · exact hcand
        · intro r hr p hp
          rw [List.mem_append, List.mem_singleton] at hr
          rcases hr with hr | rfl
          · exact floorSubset_carveRoom g _ p.1 p.2 (hf r hr p hp)
          · exact carveRoom_footprint g _ hg hcand p hp
    · exact ⟨hg, hf⟩

/-! ### The connector's pair search -/

theorem considerPair_valid (centers : List Point) (connected : List Nat)
    (a : Nat) (best : Option (Nat × Nat × Nat)) (b : Nat)
    (ha : a ∈ connected) (hb : b < centers.length)
    (hv : BestValid centers connected best) :
    BestValid centers connected (considerPair centers connected a best b) := by
  unfold considerPair
  split
  · exact hv
  · rename_i hbc
    cases best with
    | none =>
      intro d a' b' h
      simp only [Option.some.injEq, Prod.mk.injEq] at h
      obtain ⟨rfl, rfl, rfl⟩ := h
      exact ⟨ha, hb, hbc, rfl⟩
    | some t =>
      obtain ⟨bd, ba, bb⟩ := t
      dsimp only
      split
      · intro d a' b' h
        simp only [Option.some.injEq, Prod.mk.injEq] at h
        obtain ⟨rfl, rfl, rfl⟩ := h
        exact ⟨ha, hb, hbc, rfl⟩
      · exact hv

theorem considerPair_le_mono (centers : List Point) (connected : List Nat)
    (a : Nat) (best : Option (Nat × Nat × Nat)) (b : Nat) (D : Nat)
    (h : BestLe best D) :
    BestLe (considerPair centers connected a best b) D := by
  obtain ⟨d, a', b', heq, hle⟩ := h
  unfold considerPair
  split
  · exact ⟨d, a', b', heq, hle⟩
  · rw [heq]
    dsimp only
    split
    · exact ⟨_, a, b, rfl, by omega⟩
    · exact ⟨d, a', b', rfl, hle⟩

theorem considerPair_le_new (centers : List Point) (connected : List Nat)
    (a : Nat) (best : Option (Nat × Nat × Nat)) (b : Nat)
    (hbc : b ∉ connected) :
    BestLe (considerPair centers connected a best b)
      (manhattan (centerAt centers a) (centerAt centers b)) := by
  unfold considerPair
  rw [if_neg hbc]
  cases best with
  | none => exact ⟨_, a, b, rfl, le_refl _⟩
  | some t =>
    obtain ⟨bd, ba, bb⟩ := t
    dsimp only
    split
    · exact ⟨_, a, b, rfl, le_refl _⟩
    · rename_i hlt
      exact ⟨bd, ba, bb, rfl, by omega⟩

theorem innerFold_valid (centers : List Point) (connected : List Nat)
    (a : Nat) (ha : a ∈ connected) :
    ∀ (bs : List Nat) (best : Option (Nat × Nat × Nat)),
      (∀ b ∈ bs, b < centers.length) →
      BestValid centers connected best →
      BestValid centers connected
        (bs.foldl (considerPair centers connected a) best) := by
  intro bs
  induction bs with
  | nil => intro best _ hv; exact hv
  | cons b bs ih =>
    intro best hbs hv
    exact ih _ (fun x hx => hbs x (List.mem_cons_of_mem _ hx))
      (considerPair_valid centers connected a best b ha
        (hbs b (List.mem_cons_self _ _)) hv)

theorem innerFold_le_mono (centers : List Point) (connected : List Nat)
    (a : Nat) (D : Nat) :
    ∀ (bs : List Nat) (best : Option (Nat × Nat × Nat)),
      BestLe best D →
      BestLe (bs.foldl (considerPair centers connected a) best) D := by
  intro bs
  induction bs with
  | nil => intro best h; exact h
  | cons b bs ih =>
    intro best h
    exact ih _ (considerPair_le_mono centers connected a best b D h)

theorem innerFold_le_new (centers : List Point) (connected : List Nat)
    (a b : Nat) (hbc : b ∉ connected) :
    ∀ (bs : List Nat) (best : Option (Nat × Nat × Nat)),
      b ∈ bs →
      BestLe (bs.foldl (considerPair centers connected a) best)
        (manhattan (centerAt centers a) (centerAt centers b)) := by
  intro bs
  induction bs with
  | nil => intro best h; cases h
  | cons c bs ih =>
    intro best hmem
    rcases List.mem_cons.mp hmem with rfl | hmem'
    · exact innerFold_le_mono centers connected a _ bs _
        (considerPair_le_new centers connected a best b hbc)
    · exact ih _ hmem'

theorem outerFold_valid (centers : List Point) (connected : List Nat) :
    ∀ (as : List Nat) (best : Option (Nat × Nat × Nat)),
      (∀ a ∈ as, a ∈ connected) →
      BestValid centers connected best →
      BestValid centers connected
        (as.foldl (fun best a =>
          (List.range centers.length).foldl
            (considerPair centers connected a) best) best) := by
  intro as
  induction as with
  | nil => intro best _ hv; exact hv
  | cons a as ih =>
    intro best has hv
    exact ih _ (fun x hx => has x (List.mem_cons_of_mem _ hx))
      (innerFold_valid centers connected a (has a (List.mem_cons_self _ _)) _ _
        (fun b hb => List.mem_range.mp hb) hv)

theorem outerFold_le_mono (centers : List Point) (connected : List Nat)
    (D : Nat) :
    ∀ (as : List Nat) (best : Option (Nat × Nat × Nat)),
      BestLe best D →
      BestLe (as.foldl (fun best a =>
          (List.range centers.length).foldl
            (considerPair centers connected a) best) best) D := by
  intro as
  induction as with
  | nil => intro best h; exact h
  | cons a as ih =>
    intro best h
    exact ih _ (innerFold_le_mono centers connected a D _ _ h)

theorem outerFold_le_new (centers : List Point) (connected : List Nat)
    (a b : Nat) (hb : b < centers.length) (hbc : b ∉ connected) :
    ∀ (as : List Nat) (best : Option (Nat × Nat × Nat)),
      a ∈ as →
      BestLe (as.foldl (fun best a =>
          (List.range centers.length).foldl
            (considerPair centers connected a) best) best)
        (manhattan (centerAt centers a) (centerAt centers b)) := by
  intro as
  induction as with
  | nil => intro best h; cases h
  | cons c as ih =>
    intro best hmem
    rcases List.mem_cons.mp hmem with rfl | hmem'
    · exact outerFold_le_mono centers connected _ as _
        (innerFold_le_new centers connected a b hbc _ _
          (List.mem_range.mpr hb))
    · exact ih _ hmem'

theorem findBest_valid (centers : List Point) (connected : List Nat)
    (a b : Nat) (h : findBest centers connected = some (a, b)) :
    a ∈ connected ∧ b < centers.length ∧ b ∉ connected := by
  unfold findBest at h
  rcases hfold : connected.foldl (fun best a =>
      (List.range centers.length).foldl
        (considerPair centers connected a) best) none with _ | t
  · rw [hfold] at h; cases h
  · rw [hfold] at h
    obtain ⟨d, a', b'⟩ := t
    simp only [Option.map_some', Option.some.injEq] at h
    have hv := outerFold_valid centers connected connected none
      (fun x hx => hx) (fun d a b h => by cases h) d a' b' hfold
    obtain ⟨h1, h2, h3, _⟩ := hv
    obtain ⟨rfl, rfl⟩ : a' = a ∧ b' = b := by
      constructor <;> [skip; skip] <;> cases h <;> rfl
    exact ⟨h1, h2, h3⟩

theorem findBest_isSome (centers : List Point) (connected : List Nat)
    (a0 : Nat) (ha0 : a0 ∈ connected) (b0 : Nat)
    (hb0 : b0 < centers.length) (hb0c : b0 ∉ connected) :
    ∃ a b, findBest centers connected = some (a, b) := by
  have hle := outerFold_le_new centers connected a0 b0 hb0 hb0c connected none ha0
  obtain ⟨d, a, b, heq, _⟩ := hle
  exact ⟨a, b, by unfold findBest; rw [heq]; rfl⟩

theorem findBest_min (centers : List Point) (connected : List Nat)
    (a b : Nat) (h : findBest centers connected = some (a, b))
    (a' : Nat) (ha' : a' ∈ connected) (b' : Nat) (hb' : b' < centers.length)
    (hb'c : b' ∉ connected) :
    manhattan (centerAt centers a) (centerAt centers b) ≤
      manhattan (centerAt centers a') (centerAt centers b') := by
  have hle := outerFold_le_new centers connected a' b' hb' hb'c connected none ha'
  obtain ⟨d2, a2, b2, heq, hle2⟩ := hle
  have hv := outerFold_valid centers connected connected none
    (fun x hx => hx) (fun d a b h => by cases h) d2 a2 b2 heq
  unfold findBest at h
  rw [heq] at h
  simp only [Option.map_some', Option.some.injEq, Prod.mk.injEq] at h
  obtain ⟨rfl, rfl⟩ := h
  obtain ⟨_, _, _, hd⟩ := hv
  omega

/-! ### The connection loop -/

theorem exists_unconnected (connected : List Nat) (n : Nat)
    (hnd : connected.Nodup) (hlt : connected.length < n)
    (hall : ∀ i ∈ connected, i < n) : ∃ b, b < n ∧ b ∉ connected := by
  by_contra h
  push_neg at h
  have hsub : Finset.range n ⊆ connected.toFinset := by
    intro b hb
    rw [List.mem_toFinset]
    exact h b (Finset.mem_range.mp hb)
  have hcard := Finset.card_le_card hsub
  rw [Finset.card_range, List.toFinset_card_of_nodup hnd] at hcard
  omega

theorem covers_all (connected : List Nat) (n : Nat)
    (hnd : connected.Nodup) (hall : ∀ i ∈ connected, i < n)
    (hlen : n ≤ connected.length) :
    connected.length = n ∧ ∀ i, i < n → i ∈ connected := by
  have hsub : connected.toFinset ⊆ Finset.range n := by
    intro b hb
    rw [List.mem_toFinset] at hb
    exact Finset.mem_range.mpr (hall b hb)
  have hcard : connected.toFinset.card = connected.length :=
    List.toFinset_card_of_nodup hnd
  have hle := Finset.card_le_card hsub
  rw [hcard, Finset.card_range] at hle
  have heq : connected.toFinset = Finset.range n :=
    Finset.eq_of_subset_of_card_le hsub (by rw [hcard, Finset.card_range]; omega)
  refine ⟨by omega, fun i hi => ?_⟩
  have : i ∈ connected.toFinset := by rw [heq]; exact Finset.mem_range.mpr hi
  rwa [List.mem_toFinset] at this

theorem connectLoop_spec (rand : Nat → ℚ) (centers : List Point) :
    ∀ (fuel : Nat) (g : Grid) (connected : List Nat)
      (edges : List (Nat × Nat)) (k : Nat),
      connected ≠ [] → connected.Nodup →
      (∀ i ∈ connected, i < centers.length) →
      centers.length ≤ connected.length + fuel →
      (connectLoop rand centers fuel g connected edges k).2.2.2 = false ∧
      (connectLoop rand centers fuel g connected edges k).2.1.length
        = centers.length ∧
      (∀ i, i < centers.length →
        i ∈ (connectLoop rand centers fuel g connected edges k).2.1) ∧
      (connectLoop rand centers fuel g connected edges k).2.2.1.length
        = edges.length + (centers.length - connected.length) := by
  intro fuel
  induction fuel with
  | zero =>
    intro g connected edges k hne hnd hall hfuel
    have hcov := covers_all connected centers.length hnd hall (by omega)
    refine ⟨rfl, hcov.1, hcov.2, ?_⟩
    show edges.length = edges.length + (centers.length - connected.length)
    omega
  | succ fuel ih =>
    intro g connected edges k hne hnd hall hfuel
    by_cases hguard : connected.length < centers.length
    · obtain ⟨b0, hb0, hb0c⟩ :=
        exists_unconnected connected centers.length hnd hguard hall
      obtain ⟨a0, ha0⟩ : ∃ a0, a0 ∈ connected := by
        cases connected with
        | nil => exact absurd rfl hne
        | cons c cs => exact ⟨c, List.mem_cons_self _ _⟩
      obtain ⟨a, b, hfb⟩ :=
        findBest_isSome centers connected a0 ha0 b0 hb0 hb0c
      obtain ⟨hain, hbn, hbc⟩ := findBest_valid centers connected a b hfb
      simp only [connectLoop]
      rw [if_pos hguard, hfb]
      have hres := ih
        (carveCorridor (rand k) g (centerAt centers a).1 (centerAt centers a).2
          (centerAt centers b).1 (centerAt centers b).2)
        (connected ++ [b]) (edges ++ [(a, b)]) (k + 1)
        (by simp)
        (by
          rw [List.nodup_append]
          exact ⟨hnd, List.nodup_singleton _,
            fun x hx => by simp; intro hxb; subst hxb; exact hbc hx⟩)
        (by
          intro i hi
          rw [List.mem_append, List.mem_singleton] at hi
          rcases hi with hi | rfl
          · exact hall i hi
          · exact hbn)
        (by simp only [List.length_append, List.length_singleton]; omega)
      obtain ⟨h1, h2, h3, h4⟩ := hres
      refine ⟨h1, h2, h3, ?_⟩
      rw [h4]
      simp only [List.length_append, List.length_singleton]
      omega
    · have hcov := covers_all connected centers.length hnd hall (by omega)
      have hee : connectLoop rand centers (fuel + 1) g connected edges k
          = (g, connected, edges, false) := by
        simp only [connectLoop]
        rw [if_neg hguard]
      rw [hee]
      refine ⟨rfl, hcov.1, hcov.2, ?_⟩
      show edges.length = edges.length + (centers.length - connected.length)
      omega

theorem EdgeConn_mono {es es' : List (Nat × Nat)} (hsub : es ⊆ es')
    {i j : Nat} (h : EdgeConn es i j) : EdgeConn es' i j := by
  induction h with
  | refl => exact EdgeConn.refl _
  | step =>
    rename_i hij hmem ih
    refine EdgeConn.step _ _ _ ih ?_
    rcases hmem with hm | hm
    · exact Or.inl (hsub hm)
    · exact Or.inr (hsub hm)

theorem connectLoop_reach (rand : Nat → ℚ) (centers : List Point) :
    ∀ (fuel : Nat) (g : Grid) (connected : List Nat)
      (edges : List (Nat × Nat)) (k : Nat),
      (∀ i ∈ connected, EdgeConn edges 0 i) →
      ∀ i ∈ (connectLoop rand centers fuel g connected edges k).2.1,
        EdgeConn (connectLoop rand centers fuel g connected edges k).2.2.1
          0 i := by
  intro fuel
  induction fuel with
  | zero => intro g connected edges k h; exact h
  | succ fuel ih =>
    intro g connected edges k h
    simp only [connectLoop]
    split
    · rcases hfb : findBest centers connected with _ | p
      · exact h
      · obtain ⟨a, b⟩ := p
        obtain ⟨hain, _, _⟩ := findBest_valid centers connected a b hfb
        refine ih _ _ _ _ ?_
        intro i hi
        rw [List.mem_append, List.mem_singleton] at hi
        rcases hi with hi | rfl
        · exact EdgeConn_mono (List.subset_append_left _ _) (h i hi)
        · refine EdgeConn.step _ a _
            (EdgeConn_mono (List.subset_append_left _ _) (h a hain)) ?_
          left
          rw [List.mem_append, List.mem_singleton]
          right; rfl
    · exact h

theorem connectLoop_conn (rand : Nat → ℚ) (centers : List Point) :
    ∀ (fuel : Nat) (g : Grid) (connected : List Nat)
      (edges : List (Nat × Nat)) (k : Nat),
      WFGrid g →
      (∀ i ∈ connected, i < centers.length) →
      (∀ j, j < centers.length →
        inBounds (centerAt centers j).1 (centerAt centers j).2 = true) →
      (∀ i ∈ connected,
        FloorConn g (centerAt centers 0) (centerAt centers i)) →
      ∀ i ∈ (connectLoop rand centers fuel g connected edges k).2.1,
        FloorConn (connectLoop rand centers fuel g connected edges k).1
          (centerAt centers 0) (centerAt centers i) := by
  intro fuel
  induction fuel with
  | zero => intro g connected edges k _ _ _ h; exact h
  | succ fuel ih =>
    intro g connected edges k hg hall hcent h
    simp only [connectLoop]
    split
    · rcases hfb : findBest centers connected with _ | p
      · exact h
      · obtain ⟨a, b⟩ := p
        obtain ⟨hain, hbn, _⟩ := findBest_valid centers connected a b hfb
        have halt : a < centers.length := hall a hain
        have hsub : floorSubset g
            (carveCorridor (rand k) g (centerAt centers a).1
              (centerAt centers a).2 (centerAt centers b).1
              (centerAt centers b).2) :=
          floorSubset_carveCorridor _ _ _ _ _ _
        have hcc : FloorConn
            (carveCorridor (rand k) g (centerAt centers a).1
              (centerAt centers a).2 (centerAt centers b).1
              (centerAt centers b).2)
            (centerAt centers a) (centerAt centers b) := by
          have := carveCorridor_conn (rand k) g (centerAt centers a).1
            (centerAt centers a).2 (centerAt centers b).1 (centerAt centers b).2
            hg (hcent a halt) (hcent b hbn)
          simpa using this
        refine ih _ _ _ _
          (WFGrid_carveCorridor _ _ _ _ _ _ hg) ?_ hcent ?_
        · intro i hi
          rw [List.mem_append, List.mem_singleton] at hi
          rcases hi with hi | rfl
          · exact hall i hi
          · exact hbn
        · intro i hi
          rw [List.mem_append, List.mem_singleton] at hi
          rcases hi with hi | rfl
          · exact (h i hi).mono hsub
          · exact FloorConn.trans ((h a hain).mono hsub) hcc
    · exact h

theorem centerAt_map (rooms : List Room) (i : Nat) (hi : i < rooms.length) :
    centerAt (rooms.map center) i = center (rooms.getD i ⟨0, 0, 0, 0⟩) := by
  unfold centerAt
  rw [getD_eq_getElem _ _ _ (by rw [List.length_map]; exact hi),
    getD_eq_getElem _ _ _ hi, List.getElem_map]

/-! ### Claim theorems: the connector (C3, C1) -/

/-- C3: on a non-empty rooms list the connector performs exactly
rooms.length − 1 carves, never takes the no-pair-found break branch, the
carved edge set spans every room index from index 0, and each pair search
returns the valid pair of minimal Manhattan distance between centers. -/
theorem C3_spanning_tree (rand : Nat → ℚ) (k : Nat) (g : Grid)
    (rooms : List Room) (r0 : Room) (rest : List Room)
    (hrooms : rooms = r0 :: rest) :
    (connectRoomsWithCorridors rand k g rooms).2.2.1.length
        = rooms.length - 1 ∧
    (connectRoomsWithCorridors rand k g rooms).2.2.2 = false ∧
    (∀ i, i < rooms.length →
      EdgeConn (connectRoomsWithCorridors rand k g rooms).2.2.1 0 i) ∧
    (∀ conn : List Nat, conn ≠ [] →
      (∃ b, b < rooms.length ∧ b ∉ conn) →
      ∃ a b, findBest (rooms.map center) conn = some (a, b) ∧ a ∈ conn ∧
        b < rooms.length ∧ b ∉ conn ∧
        ∀ a' ∈ conn, ∀ b' : Nat, b' < rooms.length → b' ∉ conn →
          manhattan (centerAt (rooms.map center) a)
              (centerAt (rooms.map center) b) ≤
            manhattan (centerAt (rooms.map center) a')
              (centerAt (rooms.map center) b')) := by
  have hlen0 : ¬ rooms.length = 0 := by rw [hrooms]; simp
  have hcl : (rooms.map center).length = rooms.length := List.length_map _ _
  have econn : connectRoomsWithCorridors rand k g rooms
      = connectLoop rand (rooms.map center) rooms.length g [0] [] k := by
    unfold connectRoomsWithCorridors
    rw [if_neg hlen0]
  have hspec := connectLoop_spec rand (rooms.map center) rooms.length g [0] [] k
    (by simp) (List.nodup_singleton _)
    (by intro i hi; rw [List.mem_singleton] at hi; subst hi; omega)
    (by simp only [List.length_singleton]; omega)
  have hreach := connectLoop_reach rand (rooms.map center) rooms.length g [0] [] k
    (by
      intro i hi
      rw [List.mem_singleton] at hi
      subst hi
      exact EdgeConn.refl 0)
  obtain ⟨hbroke, hconnlen, hcover, hedges⟩ := hspec
  refine ⟨?_, ?_, ?_, ?_⟩
  · rw [econn, hedges]
    simp
  · rw [econn, hbroke]
  · intro i hi
    rw [econn]
    exact hreach i (hcover i (by omega))
  · intro conn hne hex
    obtain ⟨b0, hb0, hb0c⟩ := hex
    obtain ⟨a0, ha0⟩ : ∃ a0, a0 ∈ conn := by
      cases conn with
      | nil => exact absurd rfl hne
      | cons c cs => exact ⟨c, List.mem_cons_self _ _⟩
    obtain ⟨a, b, hfb⟩ :=
      findBest_isSome (rooms.map center) conn a0 ha0 b0 (by omega) hb0c
    obtain ⟨hain, hbn, hbc⟩ := findBest_valid (rooms.map center) conn a b hfb
    refine ⟨a, b, hfb, hain, by omega, hbc, ?_⟩
    intro a' ha' b' hb' hb'c
    exact findBest_min (rooms.map center) conn a b hfb a' ha' b' (by omega) hb'c

/-- Witness for C3 at a concrete two-room list: one corridor is carved,
no early stop, both rooms are spanned. -/
theorem C3_spanning_tree_witness :
    (connectRoomsWithCorridors randZero 0 (createGrid WIDTH HEIGHT WALL)
        [⟨2, 2, 4, 2⟩, ⟨28, 29, 8, 6⟩]).2.2.1.length
        = ([⟨2, 2, 4, 2⟩, ⟨28, 29, 8, 6⟩] : List Room).length - 1 ∧
    (connectRoomsWithCorridors randZero 0 (createGrid WIDTH HEIGHT WALL)
        [⟨2, 2, 4, 2⟩, ⟨28, 29, 8, 6⟩]).2.2.2 = false ∧
    (∀ i, i < ([⟨2, 2, 4, 2⟩, ⟨28, 29, 8, 6⟩] : List Room).length →
      EdgeConn (connectRoomsWithCorridors randZero 0
          (createGrid WIDTH HEIGHT WALL)
          [⟨2, 2, 4, 2⟩, ⟨28, 29, 8, 6⟩]).2.2.1 0 i) ∧
    (∀ conn : List Nat, conn ≠ [] →
      (∃ b, b < ([⟨2, 2, 4, 2⟩, ⟨28, 29, 8, 6⟩] : List Room).length ∧
        b ∉ conn) →
      ∃ a b, findBest (([⟨2, 2, 4, 2⟩, ⟨28, 29, 8, 6⟩] : List Room).map center)
          conn = some (a, b) ∧ a ∈ conn ∧
        b < ([⟨2, 2, 4, 2⟩, ⟨28, 29, 8, 6⟩] : List Room).length ∧ b ∉ conn ∧
        ∀ a' ∈ conn, ∀ b' : Nat,
          b' < ([⟨2, 2, 4, 2⟩, ⟨28, 29, 8, 6⟩] : List Room).length →
          b' ∉ conn →
          manhattan
              (centerAt (([⟨2, 2, 4, 2⟩, ⟨28, 29, 8, 6⟩] : List Room).map center) a)
              (centerAt (([⟨2, 2, 4, 2⟩, ⟨28, 29, 8, 6⟩] : List Room).map center) b) ≤
            manhattan
              (centerAt (([⟨2, 2, 4, 2⟩, ⟨28, 29, 8, 6⟩] : List Room).map center) a')
              (centerAt (([⟨2, 2, 4, 2⟩, ⟨28, 29, 8, 6⟩] : List Room).map center) b')) :=
  C3_spanning_tree randZero 0 (createGrid WIDTH HEIGHT WALL)
    [⟨2, 2, 4, 2⟩, ⟨28, 29, 8, 6⟩] ⟨2, 2, 4, 2⟩ [⟨28, 29, 8, 6⟩] rfl

/-- C1: in the generated dungeon, every returned room's footprint is
joined to the first room's footprint by a path of orthogonally adjacent
FLOOR cells. -/
theorem C1_connectivity (rand : Nat → ℚ) (roomCount : Nat)
    (hrand : ValidRand rand) (r0 : Room) (rest : List Room)
    (hrooms : (generateDungeon rand roomCount).2 = r0 :: rest) :
    ∀ r ∈ (generateDungeon rand roomCount).2,
      ∃ p q : Point, inFootprint r0 p ∧ inFootprint r q ∧
        FloorConn (generateDungeon rand roomCount).1 p q := by
  have e1 : (generateDungeon rand roomCount).2
      = (placeRooms rand (createGrid WIDTH HEIGHT WALL) roomCount).2.1 := rfl
  have e2 : (generateDungeon rand roomCount).1
      = (connectRoomsWithCorridors rand
          (placeRooms rand (createGrid WIDTH HEIGHT WALL) roomCount).2.2.2
          (placeRooms rand (createGrid WIDTH HEIGHT WALL) roomCount).1
          (placeRooms rand (createGrid WIDTH HEIGHT WALL) roomCount).2.1).1 := rfl
  rw [e1] at hrooms ⊢
  rw [e2]
  have hlen0 : ¬ (placeRooms rand (createGrid WIDTH HEIGHT WALL) roomCount).2.1.length = 0 := by
    rw [hrooms]; simp
  have econn : connectRoomsWithCorridors rand
      (placeRooms rand (createGrid WIDTH HEIGHT WALL) roomCount).2.2.2
      (placeRooms rand (createGrid WIDTH HEIGHT WALL) roomCount).1
      (placeRooms rand (createGrid WIDTH HEIGHT WALL) roomCount).2.1
      = connectLoop rand
          ((placeRooms rand (createGrid WIDTH HEIGHT WALL) roomCount).2.1.map center)
          (placeRooms rand (createGrid WIDTH HEIGHT WALL) roomCount).2.1.length
          (placeRooms rand (createGrid WIDTH HEIGHT WALL) roomCount).1 [0] []
          (placeRooms rand (createGrid WIDTH HEIGHT WALL) roomCount).2.2.2 := by
    unfold connectRoomsWithCorridors
    rw [if_neg hlen0]
  set P := placeRooms rand (createGrid WIDTH HEIGHT WALL) roomCount with hP
  have hstate := placeRoomsGo_state rand hrand roomCount ATTEMPT_CAP
    (createGrid WIDTH HEIGHT WALL) [] 0 0 WFGrid_createGrid
    (by intro r hr; cases hr) (by intro r hr; cases hr)
  have hbounds := placeRoomsGo_inBounds rand hrand roomCount ATTEMPT_CAP
    (createGrid WIDTH HEIGHT WALL) [] 0 0 (by intro r hr; cases hr)
  have hWF1 : WFGrid P.1 := hstate.1
  have hfp : ∀ r ∈ P.2.1, ∀ p : Point, inFootprint r p →
      getCell P.1 p.1 p.2 = FLOOR := hstate.2
  have hrb : ∀ r ∈ P.2.1, RoomInBounds r := hbounds
  have hclen : (P.2.1.map center).length = P.2.1.length := List.length_map _ _
  have hwge : ∀ r ∈ P.2.1, 1 ≤ r.w ∧ 1 ≤ r.h := by
    intro r hr
    obtain ⟨_, _, _, _, hw, _, hh, _⟩ := hrb r hr
    simp only [ROOM_W_MIN, ROOM_H_MIN] at hw hh
    omega
  have hcent : ∀ j, j < (P.2.1.map center).length →
      inBounds (centerAt (P.2.1.map center) j).1
        (centerAt (P.2.1.map center) j).2 = true := by
    intro j hj
    rw [hclen] at hj
    rw [centerAt_map _ _ hj]
    have hmem : P.2.1.getD j ⟨0, 0, 0, 0⟩ ∈ P.2.1 := by
      rw [getD_eq_getElem _ _ _ hj]
      exact List.getElem_mem hj
    obtain ⟨hw, hh⟩ := hwge _ hmem
    exact footprint_inBounds _ (hrb _ hmem) _
      (center_in_footprint _ hw hh)
  have hr0mem : r0 ∈ P.2.1 := by rw [hrooms]; exact List.mem_cons_self _ _
  have hc0 : centerAt (P.2.1.map center) 0 = center r0 := by
    rw [centerAt_map _ _ (by rw [hrooms]; simp)]
    rw [hrooms]
    rfl
  have hinit : ∀ i ∈ [0],
      FloorConn P.1 (centerAt (P.2.1.map center) 0)
        (centerAt (P.2.1.map center) i) := by
    intro i hi
    rw [List.mem_singleton] at hi
    subst hi
    refine FloorConn.refl _ ?_
    rw [hc0]
    obtain ⟨hw, hh⟩ := hwge r0 hr0mem
    exact hfp r0 hr0mem (center r0) (center_in_footprint r0 hw hh)
  have hconn := connectLoop_conn rand (P.2.1.map center) P.2.1.length P.1 [0] []
    P.2.2.2 hWF1
    (by intro i hi; rw [List.mem_singleton] at hi; subst hi; omega)
    hcent hinit
  have hspec := connectLoop_spec rand (P.2.1.map center) P.2.1.length P.1 [0] []
    P.2.2.2 (by simp) (List.nodup_singleton _)
    (by intro i hi; rw [List.mem_singleton] at hi; subst hi; omega)
    (by simp only [List.length_singleton]; omega)
  obtain ⟨_, _, hcover, _⟩ := hspec
  intro r hr
  obtain ⟨i, hi, hri⟩ := List.mem_iff_getElem.mp hr
  obtain ⟨hw0, hh0⟩ := hwge r0 hr0mem
  obtain ⟨hwr, hhr⟩ := hwge r hr
  refine ⟨center r0, center r, center_in_footprint r0 hw0 hh0,
    center_in_footprint r hwr hhr, ?_⟩
  rw [econn]
  have hci : centerAt (P.2.1.map center) i = center r := by
    rw [centerAt_map _ _ hi, getD_eq_getElem _ _ _ hi, hri]
  have := hconn i (hcover i (by omega))
  rwa [hc0, hci] at this

/-- Witness for C1: with the all-zero stream and roomCount 1 the single
placed room (2,2,4,2) is FLOOR-connected to itself in the final grid. -/
theorem C1_connectivity_witness :
    ValidRand randZero ∧
    ∀ r ∈ (generateDungeon randZero 1).2,
      ∃ p q : Point, inFootprint ⟨2, 2, 4, 2⟩ p ∧ inFootprint r q ∧
        FloorConn (generateDungeon randZero 1).1 p q := by
  have hv : ValidRand randZero := fun n => ⟨le_refl 0, by norm_num [randZero]⟩
  have hrooms : (generateDungeon randZero 1).2 = ⟨2, 2, 4, 2⟩ :: [] := by
    show (placeRooms randZero (createGrid WIDTH HEIGHT WALL) 1).2.1 = _
    have hswap : (placeRooms randZero (createGrid WIDTH HEIGHT WALL) 1).2.1
        = (placeRooms randZero [] 1).2.1 :=
      congrArg (fun t => t.1)
        (placeRoomsGo_snd_grid randZero 1 ATTEMPT_CAP _ [] [] 0 0)
    rw [hswap]
    unfold placeRooms ATTEMPT_CAP randZero
    rw [show (200 : Nat) = 199 + 1 from rfl, placeRoomsGo]
    norm_num [randInt, ROOM_W_MIN, ROOM_W_MAX, ROOM_H_MIN, ROOM_H_MAX, WIDTH, HEIGHT]
    rw [show (199 : Nat) = 198 + 1 from rfl, placeRoomsGo]
    norm_num
  exact ⟨hv, C1_connectivity randZero 1 hv ⟨2, 2, 4, 2⟩ [] hrooms⟩

end Dungeon
